import Mathlib

/-!
# kube-ipmi: parsing and reconciliation engine

A shallow embedding of `main.go` (the three text parsers, the Dell service-tag
transform and the reconciliation block of `main`) together with the part of the
Go standard library the code relies on (`strings.ToUpper`, `strings.ToLower`,
`strings.TrimSpace`, `strings.Contains`, `strconv.ParseUint`, `bufio.Scanner`
with `ScanLines`, and the eight regular expressions of the parsers).

Modelling conventions.
* A Go string is a list of Unicode code points (`List Char`), i.e. a valid
  UTF-8 text.  Go's `len` counts bytes, so `len` below is the UTF-8 byte length.
* The Unicode case tables for code points above `MaxASCII` are a parameter
  (`UnicodeTables`); the ASCII behaviour is spelled out as in the Go library.
-/

namespace KubeIpmi

/-- A Go string seen as its sequence of code points. -/
abbrev GoString := List Char

/-- Go `len(s)`: the number of bytes of the UTF-8 encoding of `s`. -/
def len (s : GoString) : Nat := (s.map Char.utf8Size).sum

/-- The case mappings `unicode.To(UpperCase, r)` and `unicode.To(LowerCase, r)`
for runes above `unicode.MaxASCII`; their values on ASCII runes are never used. -/
structure UnicodeTables where
  upper : Char → Char
  lower : Char → Char
  /-- No rune above ASCII has a lower-case ASCII letter as its upper case (the
  only ASCII results of the Unicode upper-case mapping are `I` and `S`). -/
  upper_not_ascii_lower :
    ∀ r : Char, 0x80 ≤ r.toNat → ¬ (97 ≤ (upper r).toNat ∧ (upper r).toNat ≤ 122)

/-- A table that leaves every non-ASCII rune unchanged, except the two runes
whose upper case is ASCII (dotless i, long s) and the two whose lower case is
ASCII (dotted capital I, Kelvin sign). -/
def basicTables : UnicodeTables where
  upper := fun r =>
    if r.toNat = 0x131 then 'I' else if r.toNat = 0x17F then 'S' else r
  lower := fun r =>
    if r.toNat = 0x130 then 'i' else if r.toNat = 0x212A then 'k' else r
  upper_not_ascii_lower := by
    intro r hr
    by_cases h1 : r.toNat = 0x131
    · simp only [h1, if_true]; decide
    · by_cases h2 : r.toNat = 0x17F
      · simp only [h1, h2, if_true, if_false]; decide
      · simp only [h1, h2, if_false]; omega

/-- Go `unicode.ToUpper`: ASCII fast path, otherwise the case table. -/
def unicodeToUpper (u : UnicodeTables) (r : Char) : Char :=
  if r.toNat ≤ 0x7F then r.toUpper else u.upper r

/-- Go `unicode.ToLower`: ASCII fast path, otherwise the case table. -/
def unicodeToLower (u : UnicodeTables) (r : Char) : Char :=
  if r.toNat ≤ 0x7F then r.toLower else u.lower r

/-- All bytes of the string are below `utf8.RuneSelf`. -/
def isASCII (s : GoString) : Bool := s.all (fun c => decide (c.toNat < 0x80))

/-- Go `strings.ToUpper`: byte-wise mapping of `a`-`z` for an ASCII-only string,
`strings.Map(unicode.ToUpper, s)` otherwise. -/
def stringsToUpper (u : UnicodeTables) (s : GoString) : GoString :=
  if isASCII s then s.map Char.toUpper else s.map (unicodeToUpper u)

/-- Go `strings.ToLower`: byte-wise mapping of `A`-`Z` for an ASCII-only string,
`strings.Map(unicode.ToLower, s)` otherwise. -/
def stringsToLower (u : UnicodeTables) (s : GoString) : GoString :=
  if isASCII s then s.map Char.toLower else s.map (unicodeToLower u)

/-- The two errors of `strconv.ParseUint` (`ErrSyntax`, `ErrRange`). -/
inductive NumError where
  | invalid
  | outOfRange
  deriving DecidableEq, Repr

/-- The digit value `strconv.ParseUint` gives to one byte of its input:
`c - '0'` for a decimal digit, `lower(c) - 'a' + 10` for a letter, where
`lower(c) = c | 0x20`.  A rune above ASCII is encoded by bytes `≥ 0x80`, each of
which falls in the `default` branch (a syntax failure). -/
def byteDigit (c : Char) : Option Nat :=
  let n := c.toNat
  if 0x80 ≤ n then none
  else if 48 ≤ n ∧ n ≤ 57 then some (n - 48)
  else if 97 ≤ (n ||| 0x20) ∧ (n ||| 0x20) ≤ 122 then some ((n ||| 0x20) - 97 + 10)
  else none

/-- The digit loop of `strconv.ParseUint` on `uint64` arithmetic. -/
def parseUintLoop (base maxVal cutoff : Nat) : GoString → Nat → Except NumError Nat
  | [], n => .ok n
  | c :: cs, n =>
    match byteDigit c with
    | none => .error .invalid
    | some d =>
      if base ≤ d then .error .invalid
      else if cutoff ≤ n then .error .outOfRange
      else
        let n0 := (n * base) % 2 ^ 64
        let n1 := (n0 + d) % 2 ^ 64
        if n1 < n0 ∨ maxVal < n1 then .error .outOfRange
        else parseUintLoop base maxVal cutoff cs n1

/-- Go `strconv.ParseUint(s, base, bitSize)` for an explicit base `2 ≤ base ≤ 36`
and `0 < bitSize ≤ 64`. -/
def strconvParseUint (s : GoString) (base bitSize : Nat) : Except NumError Nat :=
  if s = [] then .error .invalid
  else parseUintLoop base (2 ^ bitSize - 1) ((2 ^ 64 - 1) / base + 1) s 0

/-- Go `fmt.Sprintf("%d", val)` for an unsigned value: its decimal digits. -/
def sprintfD (val : Nat) : GoString := Nat.toDigits 10 val

/-- The function `dellServiceTagToExpressCode` of `main.go`. -/
def dellServiceTagToExpressCode (u : UnicodeTables) (tag : GoString) : GoString :=
  let s := stringsToUpper u tag
  if len s < 5 ∨ 10 < len s then []
  else
    match strconvParseUint s 36 64 with
    | .error _ => []
    | .ok val => sprintfD val

/-! ## `strings.TrimSpace` and `strings.Contains` -/

/-- Go `unicode.IsSpace`: the Latin-1 switch, then the `White_Space` table. -/
def unicodeIsSpace (r : Char) : Bool :=
  let n := r.toNat
  if n ≤ 0xFF then
    n == 9 || n == 10 || n == 11 || n == 12 || n == 13 || n == 32 || n == 0x85 || n == 0xA0
  else
    n == 0x1680 || (decide (0x2000 ≤ n) && decide (n ≤ 0x200A)) || n == 0x2028 ||
      n == 0x2029 || n == 0x202F || n == 0x205F || n == 0x3000

/-- Go `strings.TrimSpace`: the string without its leading and trailing runes
satisfying `unicode.IsSpace`. -/
def stringsTrimSpace (s : GoString) : GoString :=
  ((s.dropWhile unicodeIsSpace).reverse.dropWhile unicodeIsSpace).reverse

/-- Go `strings.HasPrefix`. -/
def stringsHasPrefix : GoString → GoString → Bool
  | _, [] => true
  | [], _ :: _ => false
  | c :: cs, p :: ps => c == p && stringsHasPrefix cs ps

/-- Go `strings.Contains`: `substr` occurs at some position of `s`. -/
def stringsContains : GoString → GoString → Bool
  | [], substr => stringsHasPrefix [] substr
  | c :: cs, substr => stringsHasPrefix (c :: cs) substr || stringsContains cs substr

/-! ## `bufio.Scanner` with the default `ScanLines` split function -/

/-- Go `bufio.MaxScanTokenSize`. -/
def maxScanTokenSize : Nat := 64 * 1024

/-- The tokens `ScanLines` cuts out of the input before the carriage return is
dropped: the text between newlines, and a final unterminated line when it is
not empty. -/
def rawLines : GoString → List GoString
  | [] => []
  | c :: cs =>
    if c = '\n' then [] :: rawLines cs
    else
      match rawLines cs with
      | [] => [[c]]
      | l :: ls => (c :: l) :: ls

/-- Go `dropCR`: drop one terminal carriage return. -/
def dropCR (data : GoString) : GoString :=
  if data.getLast? = some '\r' then data.dropLast else data

/-- The lines of the text, without any limit on their size. -/
def textLines (text : GoString) : List GoString := (rawLines text).map dropCR

/-- A token the scanner can deliver: it leaves room in the full-size buffer
(`maxScanTokenSize` bytes) for the newline that ends it.  On a longer token
`Scan` fails with `ErrTooLong`. -/
def fitsBuffer (l : GoString) : Bool := decide (len l < maxScanTokenSize)

/-- The successive values of `scanner.Text()` in `for scanner.Scan() { ... }`:
the loop ends at the end of the input or at the first token that is too long
(the parsers do not look at `scanner.Err()`). -/
def scanLines (text : GoString) : List GoString :=
  ((rawLines text).takeWhile fitsBuffer).map dropCR

/-! ## The regular expressions of the parsers

Each expression is a case-insensitive literal (or an alternation of two
literals), a separator around a colon and one capture group.  Go's `regexp`
returns the leftmost match and, at that position, the one a backtracking search
finds first.  In these expressions every greedy repetition is followed by a
character outside the repeated class (or by the end of the expression), so at a
given start position the greedy choice is the only one that can succeed. -/

/-- A literal rune `p` of a `(?i)` expression matches the input rune `c`: the
two are in the same simple case-folding orbit.  The orbits of ASCII letters are
the letter in both cases, with the long s (U+017F) added for `s` and the Kelvin
sign (U+212A) for `k`. -/
def foldEq (p c : Char) : Bool :=
  c.toLower == p.toLower ||
    (p.toLower == 's' && c.toNat == 0x17F) ||
    (p.toLower == 'k' && c.toNat == 0x212A)

/-- Match a case-insensitive literal at the start of `s`; the rest of `s`. -/
def matchLit : GoString → GoString → Option GoString
  | [], s => some s
  | _ :: _, [] => none
  | p :: ps, c :: cs => if foldEq p c then matchLit ps cs else none

/-- The Perl class `\s` of Go's `regexp`: `[\t\n\f\r ]`. -/
def isPerlSpace (c : Char) : Bool :=
  c == '\t' || c == '\n' || c == '\x0c' || c == '\r' || c == ' '

/-- The separator `\s*:\s*` (`before = true`) or `:\s*` (`before = false`);
the rest of the input after it. -/
def matchSep (before : Bool) (s : GoString) : Option GoString :=
  match (if before then s.dropWhile isPerlSpace else s) with
  | ':' :: r => some (r.dropWhile isPerlSpace)
  | _ => none

/-- The group `(.*)`: every rune up to the next newline. -/
def dotStar (s : GoString) : GoString := s.takeWhile (fun c => c != '\n')

/-- An alternation of literals followed by the continuation `k`: the first
alternative with which the whole expression matches. -/
def matchAlt {α : Type} (alts : List GoString) (k : GoString → Option α)
    (s : GoString) : Option α :=
  alts.findSome? (fun lit => (matchLit lit s).bind k)

/-- Unanchored search: the match at the leftmost start position that has one. -/
def leftmost {α : Type} (m : GoString → Option α) : GoString → Option α
  | [] => m []
  | c :: cs =>
    match m (c :: cs) with
    | some r => some r
    | none => leftmost m cs

/-- A greedy `[class]+`: the longest non-empty run of runes of the class, and
the rest of the input. -/
def matchPlus (p : Char → Bool) (s : GoString) : Option (GoString × GoString) :=
  if s.takeWhile p = [] then none else some (s.takeWhile p, s.dropWhile p)

/-- One literal rune. -/
def matchChar (ch : Char) : GoString → Option GoString
  | [] => none
  | c :: cs => if c = ch then some cs else none

/-- The class `[0-9]`. -/
def isDigit (c : Char) : Bool := decide (48 ≤ c.toNat) && decide (c.toNat ≤ 57)

/-- The class `[0-9A-Fa-f:]`. -/
def isMacChar (c : Char) : Bool :=
  isDigit c || (decide (65 ≤ c.toNat) && decide (c.toNat ≤ 70)) ||
    (decide (97 ≤ c.toNat) && decide (c.toNat ≤ 102)) || c == ':'

/-- The group `([0-9]+\.[0-9]+\.[0-9]+\.[0-9]+)`. -/
def matchQuad (s : GoString) : Option GoString :=
  (matchPlus isDigit s).bind fun a =>
  (matchChar '.' a.2).bind fun r1 =>
  (matchPlus isDigit r1).bind fun b =>
  (matchChar '.' b.2).bind fun r2 =>
  (matchPlus isDigit r2).bind fun c =>
  (matchChar '.' c.2).bind fun r3 =>
  (matchPlus isDigit r3).map fun d =>
    a.1 ++ '.' :: (b.1 ++ '.' :: (c.1 ++ '.' :: d.1))

/-- The capture of `(?i)Board Mfg\s*:\s*(.*)` in `line`, if it matches. -/
def reFruMfg (line : GoString) : Option GoString :=
  leftmost (matchAlt ["Board Mfg".data] fun r => (matchSep true r).map dotStar) line

/-- The second capture of `(?i)(Board Product|Product Name)\s*:\s*(.*)`. -/
def reFruModel (line : GoString) : Option GoString :=
  leftmost (matchAlt ["Board Product".data, "Product Name".data]
    fun r => (matchSep true r).map dotStar) line

/-- The second capture of `(?i)(Board Serial|Product Serial)\s*:\s*(.*)`. -/
def reFruSerial (line : GoString) : Option GoString :=
  leftmost (matchAlt ["Board Serial".data, "Product Serial".data]
    fun r => (matchSep true r).map dotStar) line

/-- The capture of `(?i)IP Address\s*:\s*([0-9]+\.[0-9]+\.[0-9]+\.[0-9]+)`. -/
def reIP (line : GoString) : Option GoString :=
  leftmost (matchAlt ["IP Address".data] fun r => (matchSep true r).bind matchQuad) line

/-- The capture of `(?i)MAC Address\s*:\s*([0-9A-Fa-f:]+)`. -/
def reMAC (line : GoString) : Option GoString :=
  leftmost (matchAlt ["MAC Address".data]
    fun r => (matchSep true r).bind fun v => (matchPlus isMacChar v).map Prod.fst) line

/-- The capture of `(?i)Manufacturer:\s*(.*)`. -/
def reDmiMfg (line : GoString) : Option GoString :=
  leftmost (matchAlt ["Manufacturer".data] fun r => (matchSep false r).map dotStar) line

/-- The capture of `(?i)Product Name:\s*(.*)`. -/
def reDmiProduct (line : GoString) : Option GoString :=
  leftmost (matchAlt ["Product Name".data] fun r => (matchSep false r).map dotStar) line

/-- The capture of `(?i)Serial Number:\s*(.*)`. -/
def reDmiSerial (line : GoString) : Option GoString :=
  leftmost (matchAlt ["Serial Number".data] fun r => (matchSep false r).map dotStar) line

/-! ## The parsers of `main.go` -/

/-- The named results of `parseFruPrint`. -/
structure FruResult where
  manufacturer : GoString
  model : GoString
  serial : GoString
  deriving DecidableEq, Repr

/-- The named results of `parseLanPrint`. -/
structure LanResult where
  ipAddress : GoString
  macAddress : GoString
  deriving DecidableEq, Repr

/-- The named results of `parseDmiSystem`. -/
structure DmiResult where
  manufacturer : GoString
  productName : GoString
  serial : GoString
  deriving DecidableEq, Repr

/-- An assignment `x = strings.TrimSpace(m[i])` guarded by `m != nil`. -/
def setLast (m : Option GoString) (old : GoString) : GoString :=
  match m with
  | some v => stringsTrimSpace v
  | none => old

/-- An assignment guarded by `m != nil` and by `x == ""`. -/
def setIfEmpty (m : Option GoString) (old : GoString) : GoString :=
  match m with
  | some v => if old = [] then stringsTrimSpace v else old
  | none => old

/-- The body of the scanning loop of `parseFruPrint`. -/
def fruStep (r : FruResult) (line : GoString) : FruResult :=
  { manufacturer := setLast (reFruMfg line) r.manufacturer
    model := setIfEmpty (reFruModel line) r.model
    serial := setIfEmpty (reFruSerial line) r.serial }

/-- The function `parseFruPrint` of `main.go`. -/
def parseFruPrint (output : GoString) : FruResult :=
  (scanLines output).foldl fruStep ⟨[], [], []⟩

/-- The body of the scanning loop of `parseLanPrint`. -/
def lanStep (r : LanResult) (line : GoString) : LanResult :=
  { ipAddress := setLast (reIP line) r.ipAddress
    macAddress := setLast (reMAC line) r.macAddress }

/-- The function `parseLanPrint` of `main.go`. -/
def parseLanPrint (output : GoString) : LanResult :=
  (scanLines output).foldl lanStep ⟨[], []⟩

/-- The body of the scanning loop of `parseDmiSystem`. -/
def dmiStep (r : DmiResult) (line : GoString) : DmiResult :=
  { manufacturer := setLast (reDmiMfg line) r.manufacturer
    productName := setLast (reDmiProduct line) r.productName
    serial := setLast (reDmiSerial line) r.serial }

/-- The function `parseDmiSystem` of `main.go`. -/
def parseDmiSystem (dmiOutput : GoString) : DmiResult :=
  (scanLines dmiOutput).foldl dmiStep ⟨[], [], []⟩

/-! ## The reconciliation in `main` -/

/-- The record `SystemInfo` of `main.go`. -/
structure SystemInfo where
  Manufacturer : GoString
  Model : GoString
  SerialNumber : GoString
  IPAddress : GoString
  MACAddress : GoString
  DellServiceTag : GoString
  DellExpressCode : GoString
  deriving DecidableEq, Repr

/-- The test `strings.Contains(strings.ToLower(m), "dell")`. -/
def isDell (u : UnicodeTables) (m : GoString) : Bool :=
  stringsContains (stringsToLower u m) "dell".data

/-- The initial `SystemInfo` built from the IPMI data (lines 143-149). -/
def seedInfo (fru : FruResult) (lan : LanResult) : SystemInfo :=
  { Manufacturer := fru.manufacturer
    Model := fru.model
    SerialNumber := fru.serial
    IPAddress := lan.ipAddress
    MACAddress := lan.macAddress
    DellServiceTag := []
    DellExpressCode := [] }

/-- The manufacturer override (lines 160-162). -/
def overrideManufacturer (dmiMfg : GoString) (s : SystemInfo) : SystemInfo :=
  if dmiMfg ≠ [] ∧ (s.Manufacturer = [] ∨ len s.Manufacturer < len dmiMfg) then
    { s with Manufacturer := dmiMfg }
  else s

/-- The model override (lines 163-165). -/
def overrideModel (dmiProduct : GoString) (s : SystemInfo) : SystemInfo :=
  if dmiProduct ≠ [] ∧ (s.Model = [] ∨ len s.Model < len dmiProduct) then
    { s with Model := dmiProduct }
  else s

/-- The serial override with the Dell derivation (lines 166-173). -/
def overrideSerial (u : UnicodeTables) (dmiSerial : GoString) (s : SystemInfo) :
    SystemInfo :=
  if dmiSerial ≠ [] ∧ dmiSerial ≠ s.SerialNumber then
    let s1 := { s with SerialNumber := dmiSerial }
    if isDell u s1.Manufacturer then
      { s1 with
        DellServiceTag := dmiSerial
        DellExpressCode := dellServiceTagToExpressCode u dmiSerial }
    else s1
  else s

/-- The `else` branch of the `dmidecode` call (lines 158-173). -/
def dmiBlock (u : UnicodeTables) (dmi : DmiResult) (s : SystemInfo) : SystemInfo :=
  overrideSerial u dmi.serial
    (overrideModel dmi.productName (overrideManufacturer dmi.manufacturer s))

/-- The final serial normalisation (lines 176-179). -/
def finalSerial (u : UnicodeTables) (s : SystemInfo) : SystemInfo :=
  if isDell u s.Manufacturer ∧ s.DellServiceTag ≠ [] then
    { s with SerialNumber := s.DellServiceTag }
  else s

/-- The record after the `dmidecode` branch (lines 143-174); `dmi = none` is a
failed `dmidecode` run. -/
def afterDmi (u : UnicodeTables) (fru : FruResult) (lan : LanResult)
    (dmi : Option DmiResult) : SystemInfo :=
  match dmi with
  | none => seedInfo fru lan
  | some d => dmiBlock u d (seedInfo fru lan)

/-- The value of `sysInfo` at line 180 of `main`, as a function of the three
parse results. -/
def reconcile (u : UnicodeTables) (fru : FruResult) (lan : LanResult)
    (dmi : Option DmiResult) : SystemInfo :=
  finalSerial u (afterDmi u fru lan dmi)

/-- The value of `sysInfo` at line 180 of `main`, as a function of the output of
the three commands; `dmiOut = none` is a failed `dmidecode` run. -/
def main (u : UnicodeTables) (fruOut lanOut : GoString) (dmiOut : Option GoString) :
    SystemInfo :=
  reconcile u (parseFruPrint fruOut) (parseLanPrint lanOut) (dmiOut.map parseDmiSystem)

/-! ## Specification-side notions for the service-tag transform -/

/-- A character of the base-36 alphabet in upper case: `0`-`9` or `A`-`Z`. -/
def isBase36Upper (c : Char) : Bool :=
  (decide (48 ≤ c.toNat) && decide (c.toNat ≤ 57)) ||
    (decide (65 ≤ c.toNat) && decide (c.toNat ≤ 90))

/-- Standard base-36 digit value: `0`-`9` are 0..9 and `A`-`Z` are 10..35. -/
def base36Digit (c : Char) : Nat :=
  if c.toNat ≤ 57 then c.toNat - 48 else c.toNat - 65 + 10

/-- The integer a string denotes when read as a base-36 numeral. -/
def base36Value (s : GoString) : Nat :=
  s.foldl (fun acc c => acc * 36 + base36Digit c) 0

/-- An ASCII letter or digit. -/
def isAsciiAlnum (c : Char) : Bool :=
  (decide (48 ≤ c.toNat) && decide (c.toNat ≤ 57)) ||
    (decide (65 ≤ c.toNat) && decide (c.toNat ≤ 90)) ||
    (decide (97 ≤ c.toNat) && decide (c.toNat ≤ 122))

/-! ## Specification-side notions for the parsers -/

/-- The trimmed value captured on the last line that matches `re`; empty when
no line matches. -/
def lastValue (re : GoString → Option GoString) (lines : List GoString) : GoString :=
  match lines.reverse.findSome? re with
  | some v => stringsTrimSpace v
  | none => []

/-- The trimmed value captured on the first line that matches `re`; empty when
no line matches. -/
def firstValue (re : GoString → Option GoString) (lines : List GoString) : GoString :=
  match lines.findSome? re with
  | some v => stringsTrimSpace v
  | none => []

/-- The trimmed value of a line when the line matches `re` and that value is not
empty. -/
def nonEmptyValue (re : GoString → Option GoString) (line : GoString) : Option GoString :=
  match re line with
  | some v => if stringsTrimSpace v = [] then none else some (stringsTrimSpace v)
  | none => none

/-- The trimmed value captured on the first line that matches `re` with a value
that is not empty after trimming; empty when there is no such line. -/
def firstNonEmptyValue (re : GoString → Option GoString) (lines : List GoString) :
    GoString :=
  match lines.findSome? (nonEmptyValue re) with
  | some v => v
  | none => []

/-- The key occurs in the line, compared case-insensitively. -/
def containsKey (key line : GoString) : Bool := (leftmost (matchLit key) line).isSome

/-- Every token of the text (the bytes between two newlines, a carriage return
before the newline included) is shorter than `maxScanTokenSize` bytes, so that
the scanner delivers every line. -/
def linesFit (text : GoString) : Bool := (rawLines text).all fitsBuffer

/-- A line of `maxScanTokenSize` bytes. -/
def longLine : GoString := List.replicate maxScanTokenSize 'x'

/-- A FRU text whose first line has `maxScanTokenSize` bytes and whose next
lines give a manufacturer, a model and a serial. -/
def fruTextLongLine : GoString :=
  longLine ++ '\n' :: "Board Mfg: ACME\nBoard Product: M1\nBoard Serial: S1".data

/-- A LAN text whose first line has `maxScanTokenSize` bytes. -/
def lanTextLongLine : GoString :=
  longLine ++ '\n' :: "IP Address : 10.0.0.5\nMAC Address : aa:bb".data

/-- A DMI text whose first line has `maxScanTokenSize` bytes. -/
def dmiTextLongLine : GoString :=
  longLine ++ '\n' :: "Manufacturer: ACME\nProduct Name: M1\nSerial Number: S1".data

/-- A FRU text whose first model line and first serial line have no value. -/
def fruTextEmptyValues : GoString :=
  "Board Product:\nProduct Name: R640\nBoard Serial :  \nProduct Serial: S2".data

/-! ## Specification-side notions for the reconciliation -/

/-- The string is empty, or its first and its last rune are not white space (in
the sense of `unicode.IsSpace`, the runes `strings.TrimSpace` removes). -/
def isTrimmed (s : GoString) : Bool :=
  (s.head?.all fun c => !unicodeIsSpace c) && (s.getLast?.all fun c => !unicodeIsSpace c)

/-- Every field of the record is empty or trimmed. -/
def allTrimmed (s : SystemInfo) : Bool :=
  isTrimmed s.Manufacturer && isTrimmed s.Model && isTrimmed s.SerialNumber &&
    isTrimmed s.IPAddress && isTrimmed s.MACAddress && isTrimmed s.DellServiceTag &&
    isTrimmed s.DellExpressCode

/-- The `dmidecode` branch with its steps reordered: the serial override and the
Dell derivation first, then the manufacturer and the model overrides. -/
def dmiBlockSerialFirst (u : UnicodeTables) (dmi : DmiResult) (s : SystemInfo) :
    SystemInfo :=
  overrideModel dmi.productName
    (overrideManufacturer dmi.manufacturer (overrideSerial u dmi.serial s))

/-- The reconciliation with the reordered `dmidecode` branch. -/
def reconcileSerialFirst (u : UnicodeTables) (fru : FruResult) (lan : LanResult)
    (dmi : Option DmiResult) : SystemInfo :=
  finalSerial u
    (match dmi with
     | none => seedInfo fru lan
     | some d => dmiBlockSerialFirst u d (seedInfo fru lan))

/-- The FRU text of the end-to-end scenario. -/
def fruTextScenario : GoString :=
  "Board Mfg: Dell Inc.\nProduct Name: PowerEdge R640\nProduct Serial: ABC1234".data

/-- The LAN text of the end-to-end scenario. -/
def lanTextScenario : GoString :=
  "IP Address : 10.0.0.5\nMAC Address : aa:bb:cc:dd:ee:ff".data

/-- The DMI text of the end-to-end scenario. -/
def dmiTextScenario : GoString :=
  "Manufacturer: Dell Inc.\nProduct Name: PowerEdge R640\nSerial Number: XYZ9999".data

/-- A FRU text whose first line has `maxScanTokenSize - 1` bytes before its
carriage return and newline: the line is shorter than the limit once the
carriage return is dropped, the token the scanner has to buffer is not. -/
def fruTextLongLineCR : GoString :=
  List.replicate (maxScanTokenSize - 1) 'x' ++ '\r' :: '\n' :: "Board Mfg: B".data

end KubeIpmi

/-! # Theorems -/

namespace KubeIpmi

/-! ## Characters and byte lengths -/

theorem toNat_ofNat_small (n : Nat) (h : n < 0xd800) : (Char.ofNat n).toNat = n := by
  have hv : n.isValidChar := Or.inl h
  simp only [Char.ofNat, hv, dite_true]
  rfl

theorem toNat_toUpper (c : Char) :
    c.toUpper.toNat = if 97 ≤ c.toNat ∧ c.toNat ≤ 122 then c.toNat - 32 else c.toNat := by
  unfold Char.toUpper
  by_cases h : 97 ≤ c.toNat ∧ c.toNat ≤ 122
  · simp only [ge_iff_le, h, and_self, if_true]
    exact toNat_ofNat_small _ (by omega)
  · simp only [ge_iff_le, h, if_false]

theorem toNat_toLower (c : Char) :
    c.toLower.toNat = if 65 ≤ c.toNat ∧ c.toNat ≤ 90 then c.toNat + 32 else c.toNat := by
  unfold Char.toLower
  by_cases h : 65 ≤ c.toNat ∧ c.toNat ≤ 90
  · simp only [ge_iff_le, h, and_self, if_true]
    exact toNat_ofNat_small _ (by omega)
  · simp only [ge_iff_le, h, if_false]

theorem char_eq_of_toNat_eq {a b : Char} (h : a.toNat = b.toNat) : a = b := by
  rw [← Char.ofNat_toNat a, ← Char.ofNat_toNat b, h]

theorem utf8Size_ascii (c : Char) (h : c.toNat < 0x80) : c.utf8Size = 1 := by
  have h1 : c.val ≤ UInt32.ofNatCore 0x7F (by decide) := by
    show c.val.toNat ≤ 127
    have : c.val.toNat = c.toNat := rfl
    omega
  simp only [Char.utf8Size, h1, if_true]

theorem lor_upper (n : Nat) (h1 : 65 ≤ n) (h2 : n ≤ 90) : n ||| 0x20 = n + 32 := by
  interval_cases n <;> rfl

theorem lor_ascii_letter (n : Nat) (h : n < 128) (h1 : 97 ≤ n ||| 0x20) (h2 : n ||| 0x20 ≤ 122) :
    (65 ≤ n ∧ n ≤ 90) ∨ (97 ≤ n ∧ n ≤ 122) := by
  interval_cases n <;> first | omega | (exfalso; revert h1 h2; decide)


theorem len_eq_length_of_ascii (s : GoString) (h : ∀ c ∈ s, c.toNat < 0x80) :
    len s = s.length := by
  induction s with
  | nil => rfl
  | cons c cs ih =>
    have hc := utf8Size_ascii c (h c (List.mem_cons_self _ _))
    have := ih (fun d hd => h d (List.mem_cons_of_mem _ hd))
    simp only [len, List.map_cons, List.sum_cons, List.length_cons] at *
    omega

theorem length_le_len (s : GoString) : s.length ≤ len s := by
  induction s with
  | nil => simp [len]
  | cons c cs ih =>
    have hc := Char.utf8Size_eq c
    simp only [len, List.map_cons, List.sum_cons, List.length_cons] at *
    omega

theorem base36Upper_ascii {c : Char} (h : isBase36Upper c = true) : c.toNat < 0x80 := by
  simp only [isBase36Upper, Bool.or_eq_true, Bool.and_eq_true, decide_eq_true_eq] at h
  omega

theorem byteDigit_base36Upper {c : Char} (h : isBase36Upper c = true) :
    byteDigit c = some (base36Digit c) ∧ base36Digit c < 36 := by
  simp only [isBase36Upper, Bool.or_eq_true, Bool.and_eq_true, decide_eq_true_eq] at h
  have h1 : ¬ (0x80 ≤ c.toNat) := by omega
  constructor
  · unfold byteDigit base36Digit
    rcases h with h | h
    · have h2 : c.toNat ≤ 57 := h.2
      rw [if_neg h1, if_pos h, if_pos h2]
    · have h2 : ¬ (48 ≤ c.toNat ∧ c.toNat ≤ 57) := by omega
      have h3 : ¬ (c.toNat ≤ 57) := by omega
      have h4 := lor_upper c.toNat h.1 h.2
      have h5 : 97 ≤ c.toNat + 32 ∧ c.toNat + 32 ≤ 122 := by omega
      rw [if_neg h1, if_neg h2, h4, if_pos h5, if_neg h3]
      exact congrArg some (by omega)
  · unfold base36Digit
    split <;> omega

/-- A character outside the upper-case base-36 alphabet that is not a lower-case
ASCII letter has no digit value below 36. -/
theorem byteDigit_not_base36Upper {c : Char} (h : isBase36Upper c = false)
    (hl : ¬ (97 ≤ c.toNat ∧ c.toNat ≤ 122)) : byteDigit c = none := by
  have h' : ¬ ((48 ≤ c.toNat ∧ c.toNat ≤ 57) ∨ (65 ≤ c.toNat ∧ c.toNat ≤ 90)) := by
    intro hh
    have : isBase36Upper c = true := by
      simp only [isBase36Upper, Bool.or_eq_true, Bool.and_eq_true, decide_eq_true_eq]
      exact hh
    rw [h] at this
    exact Bool.noConfusion this
  unfold byteDigit
  by_cases h1 : 0x80 ≤ c.toNat
  · simp only [h1, if_true]
  · have h2 : ¬ (48 ≤ c.toNat ∧ c.toNat ≤ 57) := by omega
    have h3 : ¬ (97 ≤ (c.toNat ||| 0x20) ∧ (c.toNat ||| 0x20) ≤ 122) := by
      intro hh
      have := lor_ascii_letter c.toNat (by omega) hh.1 hh.2
      omega
    simp only [h1, h2, h3, if_false]

theorem parseUintLoop_base36 (s : GoString) (hs : ∀ c ∈ s, isBase36Upper c = true) :
    ∀ (k n : Nat), n < 36 ^ k → k + s.length ≤ 10 →
      parseUintLoop 36 (2 ^ 64 - 1) ((2 ^ 64 - 1) / 36 + 1) s n =
        .ok (s.foldl (fun acc c => acc * 36 + base36Digit c) n) := by
  induction s with
  | nil => intro k n _ _; rfl
  | cons c cs ih =>
    intro k n hn hk
    obtain ⟨hd, hlt⟩ := byteDigit_base36Upper (hs c (List.mem_cons_self _ _))
    have hpow : 36 ^ (k + 1) ≤ 36 ^ 10 :=
      Nat.pow_le_pow_right (by decide) (by simp only [List.length_cons] at hk; omega)
    have hsucc : 36 ^ (k + 1) = 36 ^ k * 36 := Nat.pow_succ ..
    have h10 : (36 : Nat) ^ 10 = 3656158440062976 := by norm_num
    have hbound : n * 36 + base36Digit c < 36 ^ (k + 1) := by omega
    have hc : ¬ ((2 ^ 64 - 1) / 36 + 1 ≤ n) := by
      have : (2 ^ 64 - 1) / 36 + 1 = 512409557603043101 := by norm_num
      omega
    have hm1 : (n * 36) % 2 ^ 64 = n * 36 := Nat.mod_eq_of_lt (by omega)
    have hm2 : (n * 36 + base36Digit c) % 2 ^ 64 = n * 36 + base36Digit c :=
      Nat.mod_eq_of_lt (by omega)
    have hlt' : ¬ (36 ≤ base36Digit c) := by omega
    have hov : ¬ (n * 36 + base36Digit c < n * 36 ∨ 2 ^ 64 - 1 < n * 36 + base36Digit c) := by
      omega
    simp only [parseUintLoop, hd, hlt', if_false, hc, hm1, hm2, hov, List.foldl_cons]
    exact ih (fun d hd => hs d (List.mem_cons_of_mem _ hd)) (k + 1) _ hbound
      (by simp only [List.length_cons] at hk; omega)

theorem parseUint_base36 (s : GoString) (hs : ∀ c ∈ s, isBase36Upper c = true)
    (h1 : s ≠ []) (h2 : s.length ≤ 10) :
    strconvParseUint s 36 64 = .ok (base36Value s) := by
  unfold strconvParseUint base36Value
  simp only [h1, if_false]
  exact parseUintLoop_base36 s hs 0 0 (by norm_num) (by omega)

/-- Claim C1. For every tag whose upper-cased form has between 5 and 10 characters,
all of them among `0`-`9` and `A`-`Z`, `dellServiceTagToExpressCode` returns the
decimal digits of the upper-cased tag read as a base-36 numeral. -/
theorem C1_expressCode_is_base36_value (u : UnicodeTables) (tag : GoString)
    (hmin : 5 ≤ (stringsToUpper u tag).length)
    (hmax : (stringsToUpper u tag).length ≤ 10)
    (halpha : ∀ c ∈ stringsToUpper u tag, isBase36Upper c = true) :
    dellServiceTagToExpressCode u tag
      = Nat.toDigits 10 (base36Value (stringsToUpper u tag)) := by
  have hlen := len_eq_length_of_ascii _ (fun c hc => base36Upper_ascii (halpha c hc))
  have hne : stringsToUpper u tag ≠ [] := by
    intro h; rw [h] at hmin; simp at hmin
  have hp := parseUint_base36 _ halpha hne hmax
  have hcond : ¬ (len (stringsToUpper u tag) < 5 ∨ 10 < len (stringsToUpper u tag)) := by
    omega
  simp only [dellServiceTagToExpressCode, hcond, if_false, hp, sprintfD]

/-- Witness for C1: the tag `ABCDE` gives `17325410`, the value of `ABCDE` in base 36. -/
theorem C1_witness_ABCDE :
    dellServiceTagToExpressCode basicTables "ABCDE".data
        = Nat.toDigits 10 (base36Value (stringsToUpper basicTables "ABCDE".data))
      ∧ base36Value (stringsToUpper basicTables "ABCDE".data) = 17325410
      ∧ dellServiceTagToExpressCode basicTables "ABCDE".data = "17325410".data :=
  ⟨C1_expressCode_is_base36_value basicTables "ABCDE".data (by decide) (by decide) (by decide),
    by decide, by decide⟩

/-! ## The service-tag transform: rejection and case-insensitivity -/

theorem toDigitsCore_ne_nil (b : Nat) :
    ∀ (fuel n : Nat) (ds : List Char), ds ≠ [] → Nat.toDigitsCore b fuel n ds ≠ [] := by
  intro fuel
  induction fuel with
  | zero => intro n ds h; simpa [Nat.toDigitsCore] using h
  | succ f ih =>
    intro n ds h
    unfold Nat.toDigitsCore
    simp only
    split
    · exact List.cons_ne_nil _ _
    · exact ih _ _ (List.cons_ne_nil _ _)

theorem toDigits_ne_nil (b n : Nat) : Nat.toDigits b n ≠ [] := by
  unfold Nat.toDigits Nat.toDigitsCore
  simp only
  split
  · exact List.cons_ne_nil _ _
  · exact toDigitsCore_ne_nil b _ _ _ (List.cons_ne_nil _ _)

theorem toUpper_not_ascii_lower (c : Char) :
    ¬ (97 ≤ c.toUpper.toNat ∧ c.toUpper.toNat ≤ 122) := by
  rw [toNat_toUpper]
  split <;> omega

theorem stringsToUpper_not_ascii_lower (u : UnicodeTables) (tag : GoString) :
    ∀ c ∈ stringsToUpper u tag, ¬ (97 ≤ c.toNat ∧ c.toNat ≤ 122) := by
  intro c hc
  unfold stringsToUpper at hc
  split at hc
  · obtain ⟨d, _, rfl⟩ := List.mem_map.mp hc
    exact toUpper_not_ascii_lower d
  · obtain ⟨d, _, rfl⟩ := List.mem_map.mp hc
    unfold unicodeToUpper
    split
    · exact toUpper_not_ascii_lower d
    · exact u.upper_not_ascii_lower d (by omega)

theorem parseUintLoop_error_of_bad (base maxVal cutoff : Nat) (s : GoString)
    (h : ∃ c ∈ s, byteDigit c = none) :
    ∀ n, ∃ e, parseUintLoop base maxVal cutoff s n = .error e := by
  induction s with
  | nil => obtain ⟨c, hc, _⟩ := h; simp at hc
  | cons d ds ih =>
    intro n
    unfold parseUintLoop
    cases hd : byteDigit d with
    | none => exact ⟨_, rfl⟩
    | some v =>
      simp only
      split
      · exact ⟨_, rfl⟩
      · split
        · exact ⟨_, rfl⟩
        · split
          · exact ⟨_, rfl⟩
          · apply ih
            obtain ⟨c, hc, hcn⟩ := h
            rcases List.mem_cons.mp hc with rfl | hc'
            · rw [hd] at hcn; exact Option.noConfusion hcn
            · exact ⟨c, hc', hcn⟩

/-- A tag whose upper-cased form has a character outside `0`-`9`, `A`-`Z` is rejected. -/
theorem expressCode_nil_of_bad (u : UnicodeTables) (tag : GoString)
    (h : ∃ c ∈ stringsToUpper u tag, isBase36Upper c = false) :
    dellServiceTagToExpressCode u tag = [] := by
  obtain ⟨c, hc, hbad⟩ := h
  have hn := byteDigit_not_base36Upper hbad (stringsToUpper_not_ascii_lower u tag c hc)
  unfold dellServiceTagToExpressCode
  simp only
  split
  · rfl
  · have hne : stringsToUpper u tag ≠ [] := by
      intro h0; rw [h0] at hc; simp at hc
    obtain ⟨e, he⟩ := parseUintLoop_error_of_bad 36 (2 ^ 64 - 1) ((2 ^ 64 - 1) / 36 + 1)
      (stringsToUpper u tag) ⟨c, hc, hn⟩ 0
    simp only [strconvParseUint, hne, if_false, he]

theorem expressCode_ne_nil_of_good (u : UnicodeTables) (tag : GoString)
    (hmin : 5 ≤ (stringsToUpper u tag).length)
    (hmax : (stringsToUpper u tag).length ≤ 10)
    (halpha : ∀ c ∈ stringsToUpper u tag, isBase36Upper c = true) :
    dellServiceTagToExpressCode u tag ≠ [] := by
  have hlen := len_eq_length_of_ascii _ (fun c hc => base36Upper_ascii (halpha c hc))
  have hne : stringsToUpper u tag ≠ [] := by
    intro h; rw [h] at hmin; simp at hmin
  have hp := parseUint_base36 _ halpha hne hmax
  have hcond : ¬ (len (stringsToUpper u tag) < 5 ∨ 10 < len (stringsToUpper u tag)) := by
    omega
  simp only [dellServiceTagToExpressCode, hcond, if_false, hp, sprintfD]
  exact toDigits_ne_nil _ _

theorem all_good_or_bad (s : GoString) :
    (∀ c ∈ s, isBase36Upper c = true) ∨ (∃ c ∈ s, isBase36Upper c = false) := by
  by_cases h : ∀ c ∈ s, isBase36Upper c = true
  · exact Or.inl h
  · right
    push_neg at h
    obtain ⟨c, hc, hb⟩ := h
    exact ⟨c, hc, by simpa using hb⟩

/-- Claim C2. `dellServiceTagToExpressCode` returns the empty string exactly when the
upper-cased input has a length outside `[5, 10]` or a character outside `0`-`9`,
`A`-`Z`; this holds with the length counted in characters and with the length
counted in bytes (as Go's `len` does). -/
theorem C2_expressCode_empty_iff (u : UnicodeTables) (tag : GoString) :
    (dellServiceTagToExpressCode u tag = [] ↔
      ((stringsToUpper u tag).length < 5 ∨ 10 < (stringsToUpper u tag).length ∨
        ∃ c ∈ stringsToUpper u tag, isBase36Upper c = false)) ∧
    (dellServiceTagToExpressCode u tag = [] ↔
      (len (stringsToUpper u tag) < 5 ∨ 10 < len (stringsToUpper u tag) ∨
        ∃ c ∈ stringsToUpper u tag, isBase36Upper c = false)) := by
  rcases all_good_or_bad (stringsToUpper u tag) with hg | hb
  · have hlen := len_eq_length_of_ascii _ (fun c hc => base36Upper_ascii (hg c hc))
    have hnb : ¬ ∃ c ∈ stringsToUpper u tag, isBase36Upper c = false := by
      rintro ⟨c, hc, hf⟩
      rw [hg c hc] at hf
      exact Bool.noConfusion hf
    have key : dellServiceTagToExpressCode u tag = [] ↔
        ((stringsToUpper u tag).length < 5 ∨ 10 < (stringsToUpper u tag).length) := by
      constructor
      · intro h
        by_contra hc
        exact expressCode_ne_nil_of_good u tag (by omega) (by omega) hg h
      · intro h
        have hcond : len (stringsToUpper u tag) < 5 ∨ 10 < len (stringsToUpper u tag) := by
          omega
        simp only [dellServiceTagToExpressCode, hcond, if_true]
    rw [hlen]
    have e : ((stringsToUpper u tag).length < 5 ∨ 10 < (stringsToUpper u tag).length ∨
        ∃ c ∈ stringsToUpper u tag, isBase36Upper c = false) ↔
        ((stringsToUpper u tag).length < 5 ∨ 10 < (stringsToUpper u tag).length) := by
      constructor
      · rintro (h | h | h)
        · exact Or.inl h
        · exact Or.inr h
        · exact absurd h hnb
      · rintro (h | h)
        · exact Or.inl h
        · exact Or.inr (Or.inl h)
    exact ⟨key.trans e.symm, key.trans e.symm⟩
  · have hnil := expressCode_nil_of_bad u tag hb
    exact ⟨⟨fun _ => Or.inr (Or.inr hb), fun _ => hnil⟩,
      ⟨fun _ => Or.inr (Or.inr hb), fun _ => hnil⟩⟩

/-- The inputs `AB` (too short) and `ABCDEFGHIJK` (11 characters) give the empty
string, and so does `ABC-E` (a character outside the base-36 alphabet). -/
theorem expressCode_rejections :
    dellServiceTagToExpressCode basicTables "AB".data = [] ∧
    dellServiceTagToExpressCode basicTables "ABCDEFGHIJK".data = [] ∧
    dellServiceTagToExpressCode basicTables "ABC-E".data = [] := by
  decide

theorem toUpper_toLower (c : Char) : c.toLower.toUpper = c.toUpper := by
  apply char_eq_of_toNat_eq
  rw [toNat_toUpper, toNat_toUpper, toNat_toLower]
  repeat' split
  all_goals omega

theorem toUpper_toUpper (c : Char) : c.toUpper.toUpper = c.toUpper := by
  apply char_eq_of_toNat_eq
  rw [toNat_toUpper, toNat_toUpper]
  repeat' split
  all_goals omega

theorem isASCII_iff (s : GoString) : isASCII s = true ↔ ∀ c ∈ s, c.toNat < 0x80 := by
  simp [isASCII, List.all_eq_true]

theorem isASCII_map_toLower (s : GoString) (h : isASCII s = true) :
    isASCII (s.map Char.toLower) = true := by
  rw [isASCII_iff] at *
  intro c hc
  obtain ⟨d, hd, rfl⟩ := List.mem_map.mp hc
  have := h d hd
  rw [toNat_toLower]
  split <;> omega

theorem isASCII_map_toUpper (s : GoString) (h : isASCII s = true) :
    isASCII (s.map Char.toUpper) = true := by
  rw [isASCII_iff] at *
  intro c hc
  obtain ⟨d, hd, rfl⟩ := List.mem_map.mp hc
  have := h d hd
  rw [toNat_toUpper]
  split <;> omega

theorem alnum_isASCII (tag : GoString) (h : ∀ c ∈ tag, isAsciiAlnum c = true) :
    isASCII tag = true := by
  rw [isASCII_iff]
  intro c hc
  have := h c hc
  simp only [isAsciiAlnum, Bool.or_eq_true, Bool.and_eq_true, decide_eq_true_eq] at this
  omega

/-- Claim C3. `dellServiceTagToExpressCode` is case-insensitive: for a tag made of
ASCII letters and digits, the all-lowercase form and the all-uppercase form of
the tag give the same result as the tag itself. -/
theorem C3_expressCode_case_insensitive (u : UnicodeTables) (tag : GoString)
    (h : ∀ c ∈ tag, isAsciiAlnum c = true) :
    dellServiceTagToExpressCode u (stringsToLower u tag) = dellServiceTagToExpressCode u tag ∧
    dellServiceTagToExpressCode u (stringsToUpper u tag) = dellServiceTagToExpressCode u tag := by
  have ha := alnum_isASCII tag h
  have hl : stringsToLower u tag = tag.map Char.toLower := by
    simp only [stringsToLower, ha, if_true]
  have hu : stringsToUpper u tag = tag.map Char.toUpper := by
    simp only [stringsToUpper, ha, if_true]
  have hul : stringsToUpper u (tag.map Char.toLower) = tag.map Char.toUpper := by
    simp only [stringsToUpper, isASCII_map_toLower tag ha, if_true, List.map_map]
    apply List.map_congr_left
    intro c _
    exact toUpper_toLower c
  have huu : stringsToUpper u (tag.map Char.toUpper) = tag.map Char.toUpper := by
    simp only [stringsToUpper, isASCII_map_toUpper tag ha, if_true, List.map_map]
    apply List.map_congr_left
    intro c _
    exact toUpper_toUpper c
  constructor
  · rw [hl]
    simp only [dellServiceTagToExpressCode, hul, hu]
  · rw [hu]
    simp only [dellServiceTagToExpressCode, huu, hu]

/-- Witness for C3: the tag `aBcDe9`, with lower-case form `abcde9` and
upper-case form `ABCDE9`. -/
theorem C3_witness_mixed_case :
    stringsToLower basicTables "aBcDe9".data = "abcde9".data ∧
    stringsToUpper basicTables "aBcDe9".data = "ABCDE9".data ∧
    dellServiceTagToExpressCode basicTables (stringsToLower basicTables "aBcDe9".data)
      = dellServiceTagToExpressCode basicTables "aBcDe9".data ∧
    dellServiceTagToExpressCode basicTables (stringsToUpper basicTables "aBcDe9".data)
      = dellServiceTagToExpressCode basicTables "aBcDe9".data :=
  ⟨by decide, by decide,
    C3_expressCode_case_insensitive basicTables "aBcDe9".data (by decide)⟩

/-! ## The scanner and the scanning loops -/

theorem scanLines_eq_textLines (text : GoString) (h : linesFit text = true) :
    scanLines text = textLines text := by
  unfold scanLines textLines
  have : (rawLines text).takeWhile fitsBuffer = rawLines text := by
    rw [List.takeWhile_eq_self_iff]
    intro l hl
    exact List.all_eq_true.mp h l hl
  rw [this]

theorem foldl_fruStep_manufacturer (ls : List GoString) :
    ∀ r : FruResult, (ls.foldl fruStep r).manufacturer
      = ls.foldl (fun a l => setLast (reFruMfg l) a) r.manufacturer := by
  induction ls with
  | nil => intro r; rfl
  | cons l ls ih => intro r; simp only [List.foldl_cons]; rw [ih]; rfl

theorem foldl_fruStep_model (ls : List GoString) :
    ∀ r : FruResult, (ls.foldl fruStep r).model
      = ls.foldl (fun a l => setIfEmpty (reFruModel l) a) r.model := by
  induction ls with
  | nil => intro r; rfl
  | cons l ls ih => intro r; simp only [List.foldl_cons]; rw [ih]; rfl

theorem foldl_fruStep_serial (ls : List GoString) :
    ∀ r : FruResult, (ls.foldl fruStep r).serial
      = ls.foldl (fun a l => setIfEmpty (reFruSerial l) a) r.serial := by
  induction ls with
  | nil => intro r; rfl
  | cons l ls ih => intro r; simp only [List.foldl_cons]; rw [ih]; rfl

theorem foldl_lanStep_ipAddress (ls : List GoString) :
    ∀ r : LanResult, (ls.foldl lanStep r).ipAddress
      = ls.foldl (fun a l => setLast (reIP l) a) r.ipAddress := by
  induction ls with
  | nil => intro r; rfl
  | cons l ls ih => intro r; simp only [List.foldl_cons]; rw [ih]; rfl

theorem foldl_lanStep_macAddress (ls : List GoString) :
    ∀ r : LanResult, (ls.foldl lanStep r).macAddress
      = ls.foldl (fun a l => setLast (reMAC l) a) r.macAddress := by
  induction ls with
  | nil => intro r; rfl
  | cons l ls ih => intro r; simp only [List.foldl_cons]; rw [ih]; rfl

theorem foldl_dmiStep_manufacturer (ls : List GoString) :
    ∀ r : DmiResult, (ls.foldl dmiStep r).manufacturer
      = ls.foldl (fun a l => setLast (reDmiMfg l) a) r.manufacturer := by
  induction ls with
  | nil => intro r; rfl
  | cons l ls ih => intro r; simp only [List.foldl_cons]; rw [ih]; rfl

theorem foldl_dmiStep_productName (ls : List GoString) :
    ∀ r : DmiResult, (ls.foldl dmiStep r).productName
      = ls.foldl (fun a l => setLast (reDmiProduct l) a) r.productName := by
  induction ls with
  | nil => intro r; rfl
  | cons l ls ih => intro r; simp only [List.foldl_cons]; rw [ih]; rfl

theorem foldl_dmiStep_serial (ls : List GoString) :
    ∀ r : DmiResult, (ls.foldl dmiStep r).serial
      = ls.foldl (fun a l => setLast (reDmiSerial l) a) r.serial := by
  induction ls with
  | nil => intro r; rfl
  | cons l ls ih => intro r; simp only [List.foldl_cons]; rw [ih]; rfl

/-- A loop of last-wins assignments ends with the value of the last matching line. -/
theorem foldl_setLast (re : GoString → Option GoString) (ls : List GoString) :
    ∀ a : GoString, ls.foldl (fun a l => setLast (re l) a) a
      = match ls.reverse.findSome? re with
        | some v => stringsTrimSpace v
        | none => a := by
  induction ls with
  | nil => intro a; rfl
  | cons l ls ih =>
    intro a
    simp only [List.foldl_cons, List.reverse_cons, List.findSome?_append]
    rw [ih]
    cases h1 : ls.reverse.findSome? re with
    | some v => rfl
    | none =>
      cases h2 : re l with
      | some w => simp [setLast, List.findSome?, h2]
      | none => simp [setLast, List.findSome?, h2]

/-- A loop of guarded assignments keeps a value that is already set. -/
theorem foldl_setIfEmpty_of_ne (re : GoString → Option GoString) (ls : List GoString) :
    ∀ a : GoString, a ≠ [] → ls.foldl (fun a l => setIfEmpty (re l) a) a = a := by
  induction ls with
  | nil => intro a _; rfl
  | cons l ls ih =>
    intro a ha
    have : setIfEmpty (re l) a = a := by
      unfold setIfEmpty
      cases re l with
      | some v => simp only [ha, if_false]
      | none => rfl
    simp only [List.foldl_cons, this]
    exact ih a ha

/-- A loop of guarded assignments started on the empty string ends with the
first non-empty value. -/
theorem foldl_setIfEmpty (re : GoString → Option GoString) (ls : List GoString) :
    ls.foldl (fun a l => setIfEmpty (re l) a) [] = firstNonEmptyValue re ls := by
  induction ls with
  | nil => rfl
  | cons l ls ih =>
    simp only [List.foldl_cons, firstNonEmptyValue, List.findSome?_cons]
    cases h : re l with
    | none =>
      simp only [setIfEmpty, nonEmptyValue, h]
      exact ih
    | some v =>
      by_cases hv : stringsTrimSpace v = []
      · simp only [setIfEmpty, nonEmptyValue, h, hv, if_true]
        exact ih
      · simp only [setIfEmpty, nonEmptyValue, h, hv, if_true, if_false]
        exact foldl_setIfEmpty_of_ne re ls _ hv

theorem parseFruPrint_manufacturer (output : GoString) :
    (parseFruPrint output).manufacturer = lastValue reFruMfg (scanLines output) := by
  unfold parseFruPrint lastValue
  rw [foldl_fruStep_manufacturer, foldl_setLast]

theorem parseFruPrint_model (output : GoString) :
    (parseFruPrint output).model = firstNonEmptyValue reFruModel (scanLines output) := by
  unfold parseFruPrint
  rw [foldl_fruStep_model, foldl_setIfEmpty]

theorem parseFruPrint_serial (output : GoString) :
    (parseFruPrint output).serial = firstNonEmptyValue reFruSerial (scanLines output) := by
  unfold parseFruPrint
  rw [foldl_fruStep_serial, foldl_setIfEmpty]

theorem parseLanPrint_ipAddress (output : GoString) :
    (parseLanPrint output).ipAddress = lastValue reIP (scanLines output) := by
  unfold parseLanPrint lastValue
  rw [foldl_lanStep_ipAddress, foldl_setLast]

theorem parseLanPrint_macAddress (output : GoString) :
    (parseLanPrint output).macAddress = lastValue reMAC (scanLines output) := by
  unfold parseLanPrint lastValue
  rw [foldl_lanStep_macAddress, foldl_setLast]

theorem parseDmiSystem_manufacturer (output : GoString) :
    (parseDmiSystem output).manufacturer = lastValue reDmiMfg (scanLines output) := by
  unfold parseDmiSystem lastValue
  rw [foldl_dmiStep_manufacturer, foldl_setLast]

theorem parseDmiSystem_productName (output : GoString) :
    (parseDmiSystem output).productName = lastValue reDmiProduct (scanLines output) := by
  unfold parseDmiSystem lastValue
  rw [foldl_dmiStep_productName, foldl_setLast]

theorem parseDmiSystem_serial (output : GoString) :
    (parseDmiSystem output).serial = lastValue reDmiSerial (scanLines output) := by
  unfold parseDmiSystem lastValue
  rw [foldl_dmiStep_serial, foldl_setLast]

/-! ## A text with a line that does not fit the scanner's buffer -/

theorem rawLines_replicate_newline (rest : GoString) :
    ∀ n : Nat, rawLines (List.replicate n 'x' ++ '\n' :: rest)
      = List.replicate n 'x' :: rawLines rest := by
  intro n
  induction n with
  | zero => simp [rawLines]
  | succ n ih =>
    have hx : ('x' : Char) ≠ '\n' := by decide
    show rawLines ('x' :: (List.replicate n 'x' ++ '\n' :: rest)) = _
    rw [rawLines, if_neg hx, ih]
    rfl

theorem len_replicate_x (n : Nat) : len (List.replicate n 'x') = n := by
  rw [len_eq_length_of_ascii]
  · simp
  · intro c hc
    rw [List.eq_of_mem_replicate hc]
    decide

theorem fitsBuffer_longLine : fitsBuffer longLine = false := by
  simp only [fitsBuffer, longLine, len_replicate_x, Nat.lt_irrefl, decide_False]

/-- The scanner delivers nothing of a text that starts with a line of
`maxScanTokenSize` bytes. -/
theorem scanLines_longLine (rest : GoString) :
    scanLines (longLine ++ '\n' :: rest) = [] := by
  unfold scanLines
  have h := rawLines_replicate_newline rest maxScanTokenSize
  have hf := fitsBuffer_longLine
  unfold longLine at *
  rw [h, List.takeWhile_cons, hf]
  rfl

theorem textLines_longLine (rest : GoString) :
    textLines (longLine ++ '\n' :: rest) = dropCR longLine :: textLines rest := by
  unfold textLines
  have h := rawLines_replicate_newline rest maxScanTokenSize
  unfold longLine at *
  rw [h]
  rfl

theorem lastValue_cons_of_some (re : GoString → Option GoString) (l : GoString)
    (ls : List GoString) (v : GoString) (h : ls.reverse.findSome? re = some v) :
    lastValue re (l :: ls) = stringsTrimSpace v := by
  simp only [lastValue, List.reverse_cons, List.findSome?_append, h, Option.or]

theorem matchAlt_replicate_x {α : Type} (alts : List GoString) (k : GoString → Option α)
    (h : alts.all (fun lit => !(lit.head?.map (foldEq · 'x')).getD true) = true)
    (n : Nat) :
    matchAlt alts k (List.replicate n 'x') = none := by
  unfold matchAlt
  rw [List.findSome?_eq_none_iff]
  intro lit hlit
  have hl := List.all_eq_true.mp h lit hlit
  cases lit with
  | nil => simp at hl
  | cons p ps =>
    have hp : foldEq p 'x' = false := by simpa using hl
    cases n with
    | zero => rfl
    | succ n => simp only [List.replicate_succ, matchLit, hp, Option.bind]; rfl

theorem leftmost_replicate_x {α : Type} (m : GoString → Option α)
    (h : ∀ n, m (List.replicate n 'x') = none) :
    ∀ n, leftmost m (List.replicate n 'x') = none := by
  intro n
  induction n with
  | zero => exact h 0
  | succ n ih =>
    have := h (n + 1)
    simp only [List.replicate_succ] at this ⊢
    simp only [leftmost, this, ih]

theorem dropCR_longLine : dropCR longLine = longLine := by
  unfold dropCR
  have : longLine.getLast? ≠ some '\r' := by
    intro h
    have hm := List.mem_of_getLast?_eq_some h
    have := List.eq_of_mem_replicate hm
    exact absurd this (by decide)
  rw [if_neg this]

theorem reFruModel_longLine : reFruModel longLine = none :=
  leftmost_replicate_x _ (matchAlt_replicate_x _ _ (by decide)) _

theorem reFruSerial_longLine : reFruSerial longLine = none :=
  leftmost_replicate_x _ (matchAlt_replicate_x _ _ (by decide)) _

/-! ## C4-C6: which line gives a field its value -/

/-- Claim C4, amended. For every FRU text in which every newline-delimited line,
counted with its trailing carriage return when it has one, is shorter than the
scanner's token limit (65536 bytes), the manufacturer returned by `parseFruPrint`
is the trimmed value of the last line that matches the `Board Mfg` expression
(the empty string when no line matches). -/
theorem C4_manufacturer_last_match (output : GoString) (h : linesFit output = true) :
    (parseFruPrint output).manufacturer = lastValue reFruMfg (textLines output) := by
  rw [parseFruPrint_manufacturer, scanLines_eq_textLines output h]

/-- Witness for C4: two `Board Mfg` lines, the later one wins. -/
theorem C4_witness_two_lines :
    linesFit "Board Mfg: First\nBoard Mfg : Second \n".data = true ∧
    lastValue reFruMfg (textLines "Board Mfg: First\nBoard Mfg : Second \n".data)
      = "Second".data ∧
    (parseFruPrint "Board Mfg: First\nBoard Mfg : Second \n".data).manufacturer
      = lastValue reFruMfg (textLines "Board Mfg: First\nBoard Mfg : Second \n".data) :=
  ⟨by decide, by decide,
    C4_manufacturer_last_match "Board Mfg: First\nBoard Mfg : Second \n".data (by decide)⟩

/-- Counterexample to C4 as stated: after a line of 65536 bytes the scanner
stops, so the `Board Mfg: ACME` line that follows is never read and the
manufacturer is empty, while the last matching line of the text has the value
`ACME`. -/
theorem C4_counterexample_long_line :
    (parseFruPrint fruTextLongLine).manufacturer = [] ∧
    lastValue reFruMfg (textLines fruTextLongLine) = "ACME".data ∧
    (parseFruPrint fruTextLongLine).manufacturer
      ≠ lastValue reFruMfg (textLines fruTextLongLine) := by
  have h1 : (parseFruPrint fruTextLongLine).manufacturer = [] := by
    unfold parseFruPrint fruTextLongLine
    rw [scanLines_longLine]
    rfl
  have h2 : lastValue reFruMfg (textLines fruTextLongLine) = "ACME".data := by
    unfold fruTextLongLine
    rw [textLines_longLine]
    rw [lastValue_cons_of_some reFruMfg _ _ "ACME".data (by decide)]
    decide
  refine ⟨h1, h2, ?_⟩
  rw [h1, h2]
  decide

theorem firstValue_cons_of_none (re : GoString → Option GoString) (l : GoString)
    (ls : List GoString) (h : re l = none) :
    firstValue re (l :: ls) = firstValue re ls := by
  simp only [firstValue, List.findSome?_cons, h]

/-- Claim C5, amended. For every FRU text in which every newline-delimited line,
counted with its trailing carriage return when it has one, is shorter than the
scanner's token limit (65536 bytes), the model returned by `parseFruPrint` is the
trimmed value of the first line that matches `Board Product` or `Product Name`
with a value that is not empty after trimming, and the serial is the trimmed
value of the first line that matches `Board Serial` or `Product Serial` with
such a value (the empty string when there is no such line). -/
theorem C5_model_serial_first_non_empty (output : GoString)
    (h : linesFit output = true) :
    (parseFruPrint output).model = firstNonEmptyValue reFruModel (textLines output) ∧
    (parseFruPrint output).serial = firstNonEmptyValue reFruSerial (textLines output) := by
  rw [parseFruPrint_model, parseFruPrint_serial, scanLines_eq_textLines output h]
  exact ⟨rfl, rfl⟩

/-- Witness for C5: the first model line and the first serial line win over the
later ones. -/
theorem C5_witness_first_wins :
    linesFit "Product Name: A1\nBoard Product: B2\nBoard Serial: S1\nProduct Serial: S2".data
      = true ∧
    (parseFruPrint
      "Product Name: A1\nBoard Product: B2\nBoard Serial: S1\nProduct Serial: S2".data).model
      = "A1".data ∧
    (parseFruPrint
      "Product Name: A1\nBoard Product: B2\nBoard Serial: S1\nProduct Serial: S2".data).serial
      = "S1".data ∧
    ((parseFruPrint
      "Product Name: A1\nBoard Product: B2\nBoard Serial: S1\nProduct Serial: S2".data).model
      = firstNonEmptyValue reFruModel (textLines
        "Product Name: A1\nBoard Product: B2\nBoard Serial: S1\nProduct Serial: S2".data) ∧
    (parseFruPrint
      "Product Name: A1\nBoard Product: B2\nBoard Serial: S1\nProduct Serial: S2".data).serial
      = firstNonEmptyValue reFruSerial (textLines
        "Product Name: A1\nBoard Product: B2\nBoard Serial: S1\nProduct Serial: S2".data)) :=
  ⟨by decide, by decide, by decide,
    C5_model_serial_first_non_empty
      "Product Name: A1\nBoard Product: B2\nBoard Serial: S1\nProduct Serial: S2".data
      (by decide)⟩

/-- Counterexample to C5 as stated.  In `fruTextEmptyValues` the first model line
(`Board Product:`) and the first serial line (`Board Serial :`) have an empty
value, and the parser takes the model `R640` and the serial `S2` from the later
lines.  In `fruTextLongLine` the scanner stops on the first line, so the model
and the serial are empty although the first matching lines have the values `M1`
and `S1`. -/
theorem C5_counterexample_first_match :
    ((parseFruPrint fruTextEmptyValues).model = "R640".data ∧
      firstValue reFruModel (textLines fruTextEmptyValues) = [] ∧
      (parseFruPrint fruTextEmptyValues).serial = "S2".data ∧
      firstValue reFruSerial (textLines fruTextEmptyValues) = []) ∧
    ((parseFruPrint fruTextLongLine).model = [] ∧
      firstValue reFruModel (textLines fruTextLongLine) = "M1".data ∧
      (parseFruPrint fruTextLongLine).serial = [] ∧
      firstValue reFruSerial (textLines fruTextLongLine) = "S1".data) := by
  refine ⟨by decide, ?_, ?_, ?_, ?_⟩
  · unfold parseFruPrint fruTextLongLine
    rw [scanLines_longLine]
    rfl
  · unfold fruTextLongLine
    rw [textLines_longLine, dropCR_longLine,
      firstValue_cons_of_none _ _ _ reFruModel_longLine]
    decide
  · unfold parseFruPrint fruTextLongLine
    rw [scanLines_longLine]
    rfl
  · unfold fruTextLongLine
    rw [textLines_longLine, dropCR_longLine,
      firstValue_cons_of_none _ _ _ reFruSerial_longLine]
    decide

/-- Claim C6, amended. For every LAN text and every DMI text in which every
newline-delimited line, counted with its trailing carriage return when it has
one, is shorter than the scanner's token limit (65536 bytes), each field returned by
`parseLanPrint` and `parseDmiSystem` is the trimmed value captured on the last
line of the text that matches the field's expression (the empty string when no
line matches). -/
theorem C6_lan_dmi_last_match (lanOut dmiOut : GoString)
    (hl : linesFit lanOut = true) (hd : linesFit dmiOut = true) :
    (parseLanPrint lanOut).ipAddress = lastValue reIP (textLines lanOut) ∧
    (parseLanPrint lanOut).macAddress = lastValue reMAC (textLines lanOut) ∧
    (parseDmiSystem dmiOut).manufacturer = lastValue reDmiMfg (textLines dmiOut) ∧
    (parseDmiSystem dmiOut).productName = lastValue reDmiProduct (textLines dmiOut) ∧
    (parseDmiSystem dmiOut).serial = lastValue reDmiSerial (textLines dmiOut) := by
  rw [parseLanPrint_ipAddress, parseLanPrint_macAddress, parseDmiSystem_manufacturer,
    parseDmiSystem_productName, parseDmiSystem_serial,
    scanLines_eq_textLines lanOut hl, scanLines_eq_textLines dmiOut hd]
  exact ⟨rfl, rfl, rfl, rfl, rfl⟩

/-- Witness for C6: a two-section LAN dump and a DMI text with repeated keys. -/
theorem C6_witness_repeated_keys :
    (parseLanPrint "IP Address : 10.0.0.1\nIP Address : 10.0.0.2\nMAC Address : aa:01\nMAC Address : aa:02".data
      = ⟨"10.0.0.2".data, "aa:02".data⟩) ∧
    (parseDmiSystem "Manufacturer: A\nManufacturer: B\nProduct Name: P\nSerial Number: 1\nSerial Number: 2".data
      = ⟨"B".data, "P".data, "2".data⟩) ∧
    ((parseLanPrint "IP Address : 10.0.0.1\nIP Address : 10.0.0.2\nMAC Address : aa:01\nMAC Address : aa:02".data).ipAddress
      = lastValue reIP (textLines "IP Address : 10.0.0.1\nIP Address : 10.0.0.2\nMAC Address : aa:01\nMAC Address : aa:02".data) ∧
    (parseLanPrint "IP Address : 10.0.0.1\nIP Address : 10.0.0.2\nMAC Address : aa:01\nMAC Address : aa:02".data).macAddress
      = lastValue reMAC (textLines "IP Address : 10.0.0.1\nIP Address : 10.0.0.2\nMAC Address : aa:01\nMAC Address : aa:02".data) ∧
    (parseDmiSystem "Manufacturer: A\nManufacturer: B\nProduct Name: P\nSerial Number: 1\nSerial Number: 2".data).manufacturer
      = lastValue reDmiMfg (textLines "Manufacturer: A\nManufacturer: B\nProduct Name: P\nSerial Number: 1\nSerial Number: 2".data) ∧
    (parseDmiSystem "Manufacturer: A\nManufacturer: B\nProduct Name: P\nSerial Number: 1\nSerial Number: 2".data).productName
      = lastValue reDmiProduct (textLines "Manufacturer: A\nManufacturer: B\nProduct Name: P\nSerial Number: 1\nSerial Number: 2".data) ∧
    (parseDmiSystem "Manufacturer: A\nManufacturer: B\nProduct Name: P\nSerial Number: 1\nSerial Number: 2".data).serial
      = lastValue reDmiSerial (textLines "Manufacturer: A\nManufacturer: B\nProduct Name: P\nSerial Number: 1\nSerial Number: 2".data)) :=
  ⟨by decide, by decide,
    C6_lan_dmi_last_match
      "IP Address : 10.0.0.1\nIP Address : 10.0.0.2\nMAC Address : aa:01\nMAC Address : aa:02".data
      "Manufacturer: A\nManufacturer: B\nProduct Name: P\nSerial Number: 1\nSerial Number: 2".data
      (by decide) (by decide)⟩

/-- Counterexample to C6 as stated: after a line of 65536 bytes the scanner
stops, so `parseLanPrint` and `parseDmiSystem` return empty fields although
later lines of the text match. -/
theorem C6_counterexample_long_line :
    ((parseLanPrint lanTextLongLine).ipAddress = [] ∧
      lastValue reIP (textLines lanTextLongLine) = "10.0.0.5".data) ∧
    ((parseLanPrint lanTextLongLine).macAddress = [] ∧
      lastValue reMAC (textLines lanTextLongLine) = "aa:bb".data) ∧
    ((parseDmiSystem dmiTextLongLine).manufacturer = [] ∧
      lastValue reDmiMfg (textLines dmiTextLongLine) = "ACME".data) ∧
    ((parseDmiSystem dmiTextLongLine).productName = [] ∧
      lastValue reDmiProduct (textLines dmiTextLongLine) = "M1".data) ∧
    ((parseDmiSystem dmiTextLongLine).serial = [] ∧
      lastValue reDmiSerial (textLines dmiTextLongLine) = "S1".data) := by
  have hlan : parseLanPrint lanTextLongLine = ⟨[], []⟩ := by
    unfold parseLanPrint lanTextLongLine
    rw [scanLines_longLine]
    rfl
  have hdmi : parseDmiSystem dmiTextLongLine = ⟨[], [], []⟩ := by
    unfold parseDmiSystem dmiTextLongLine
    rw [scanLines_longLine]
    rfl
  rw [hlan, hdmi]
  unfold lanTextLongLine dmiTextLongLine
  rw [textLines_longLine, textLines_longLine]
  refine ⟨⟨rfl, ?_⟩, ⟨rfl, ?_⟩, ⟨rfl, ?_⟩, ⟨rfl, ?_⟩, ⟨rfl, ?_⟩⟩
  · rw [lastValue_cons_of_some reIP _ _ "10.0.0.5".data (by decide)]; decide
  · rw [lastValue_cons_of_some reMAC _ _ "aa:bb".data (by decide)]; decide
  · rw [lastValue_cons_of_some reDmiMfg _ _ "ACME".data (by decide)]; decide
  · rw [lastValue_cons_of_some reDmiProduct _ _ "M1".data (by decide)]; decide
  · rw [lastValue_cons_of_some reDmiSerial _ _ "S1".data (by decide)]; decide

/-! ## C7: the separator of the DMI expressions -/

theorem len_append (a b : GoString) : len (a ++ b) = len a + len b := by
  simp only [len, List.map_append, List.sum_append]

theorem rawLines_single (l : GoString) (h1 : l ≠ []) (h2 : ∀ c ∈ l, c ≠ '\n') :
    rawLines l = [l] := by
  induction l with
  | nil => exact absurd rfl h1
  | cons c cs ih =>
    have hc : c ≠ '\n' := h2 c (List.mem_cons_self _ _)
    rw [rawLines, if_neg hc]
    cases cs with
    | nil => rfl
    | cons d ds =>
      rw [ih (List.cons_ne_nil _ _) (fun e he => h2 e (List.mem_cons_of_mem _ he))]

theorem dropCR_of_not_mem (l : GoString) (h : ∀ c ∈ l, c ≠ '\r') : dropCR l = l := by
  unfold dropCR
  have : l.getLast? ≠ some '\r' := fun hl => h _ (List.mem_of_getLast?_eq_some hl) rfl
  rw [if_neg this]

/-- The scanner delivers a text that is one line without line break as it is. -/
theorem scanLines_single (l : GoString) (h1 : l ≠ []) (h2 : ∀ c ∈ l, c ≠ '\n')
    (h3 : ∀ c ∈ l, c ≠ '\r') (h4 : len l < maxScanTokenSize) : scanLines l = [l] := by
  unfold scanLines
  rw [rawLines_single l h1 h2]
  have hf : fitsBuffer l = true := by simp only [fitsBuffer, h4, decide_True]
  rw [List.takeWhile_cons, hf]
  simp only [if_true, List.takeWhile_nil, List.map_cons, List.map_nil,
    dropCR_of_not_mem l h3]

theorem foldEq_self (c : Char) : foldEq c c = true := by
  simp [foldEq]

theorem matchLit_append (key rest : GoString) : matchLit key (key ++ rest) = some rest := by
  induction key with
  | nil => cases rest <;> rfl
  | cons p ps ih =>
    simp only [List.cons_append, matchLit, foldEq_self, if_true]
    exact ih

theorem leftmost_of_some {α : Type} (m : GoString → Option α) (s : GoString) (r : α)
    (h : m s = some r) : leftmost m s = some r := by
  cases s with
  | nil => exact h
  | cons c cs => simp only [leftmost, h]

theorem dropWhile_dropWhile_of_imp (p q : Char → Bool) (hpq : ∀ c, p c = true → q c = true)
    (l : GoString) : (l.dropWhile p).dropWhile q = l.dropWhile q := by
  induction l with
  | nil => rfl
  | cons c cs ih =>
    by_cases hp : p c = true
    · rw [List.dropWhile_cons_of_pos hp, ih, List.dropWhile_cons_of_pos (hpq c hp)]
    · rw [List.dropWhile_cons_of_neg hp]

theorem perlSpace_isSpace (c : Char) (h : isPerlSpace c = true) : unicodeIsSpace c = true := by
  simp only [isPerlSpace, Bool.or_eq_true, beq_iff_eq] at h
  rcases h with (((h | h) | h) | h) | h <;> subst h <;> decide

theorem trimSpace_dropWhile_perlSpace (s : GoString) :
    stringsTrimSpace (s.dropWhile isPerlSpace) = stringsTrimSpace s := by
  unfold stringsTrimSpace
  rw [dropWhile_dropWhile_of_imp _ _ perlSpace_isSpace]

theorem mem_dropWhile {p : Char → Bool} {l : GoString} {c : Char}
    (h : c ∈ l.dropWhile p) : c ∈ l :=
  (List.dropWhile_sublist p).subset h

/-- The capture of an expression `(?i)Key:\s*(.*)` on the line `Key:` followed by
spaces or tabs and a value without newline, up to trimming. -/
theorem dmi_capture (key ws X : GoString)
    (hws : ∀ c ∈ ws, isPerlSpace c = true) (hX : ∀ c ∈ X, c ≠ '\n') :
    ∃ v, leftmost (matchAlt [key] fun r => (matchSep false r).map dotStar)
        (key ++ ':' :: (ws ++ X)) = some v ∧ stringsTrimSpace v = stringsTrimSpace X := by
  refine ⟨X.dropWhile isPerlSpace, ?_, trimSpace_dropWhile_perlSpace X⟩
  apply leftmost_of_some
  have hd : dotStar (X.dropWhile isPerlSpace) = X.dropWhile isPerlSpace := by
    unfold dotStar
    rw [List.takeWhile_eq_self_iff]
    intro c hc
    simpa using hX c (mem_dropWhile hc)
  simp only [matchAlt, List.findSome?_cons, matchLit_append, Option.bind, matchSep,
    List.dropWhile_append_of_pos hws, Option.map, hd, Bool.false_eq_true, if_false]

theorem scanLines_key_line (key ws X : GoString) (n : Nat)
    (hkey : ∀ c ∈ key, c ≠ '\n' ∧ c ≠ '\r') (hn : len key = n)
    (hws : ∀ c ∈ ws, c = ' ' ∨ c = '\t')
    (hX : ∀ c ∈ X, c ≠ '\n' ∧ c ≠ '\r')
    (hfit : n + 1 + len ws + len X < maxScanTokenSize) :
    scanLines (key ++ ':' :: (ws ++ X)) = [key ++ ':' :: (ws ++ X)] := by
  have hmem : ∀ c ∈ key ++ ':' :: (ws ++ X), c ≠ '\n' ∧ c ≠ '\r' := by
    intro c hc
    rcases List.mem_append.mp hc with h | h
    · exact hkey c h
    · rcases List.mem_cons.mp h with h | h
      · subst h; decide
      · rcases List.mem_append.mp h with h | h
        · rcases hws c h with h | h <;> subst h <;> decide
        · exact hX c h
  apply scanLines_single
  · cases key <;> simp
  · exact fun c hc => (hmem c hc).1
  · exact fun c hc => (hmem c hc).2
  · have h1 : len (':' :: (ws ++ X)) = 1 + (len ws + len X) := by
      have : len (':' :: (ws ++ X)) = len [':'] + len (ws ++ X) := by
        rw [← len_append]; rfl
      rw [this, len_append]
      rfl
    rw [len_append, h1, hn]
    omega

theorem spaceTab_perlSpace (ws : GoString) (hws : ∀ c ∈ ws, c = ' ' ∨ c = '\t') :
    ∀ c ∈ ws, isPerlSpace c = true := by
  intro c hc
  rcases hws c hc with h | h <;> subst h <;> decide

/-- Claim C7, amended. `parseDmiSystem` tolerates whitespace after the colon: for
every value `X` without line break, the one-line text made of the key, a colon,
any run of spaces and tabs and `X` (shorter than the scanner's token limit)
yields the trimmed `X` in the field of the key, for `Manufacturer`,
`Product Name` and `Serial Number`; the result is the same with and without
the whitespace. -/
theorem C7_dmi_space_after_colon (ws X : GoString)
    (hws : ∀ c ∈ ws, c = ' ' ∨ c = '\t')
    (hX : ∀ c ∈ X, c ≠ '\n' ∧ c ≠ '\r')
    (hfit : len ws + len X + 14 < maxScanTokenSize) :
    (parseDmiSystem ("Manufacturer".data ++ ':' :: (ws ++ X))).manufacturer
      = stringsTrimSpace X ∧
    (parseDmiSystem ("Product Name".data ++ ':' :: (ws ++ X))).productName
      = stringsTrimSpace X ∧
    (parseDmiSystem ("Serial Number".data ++ ':' :: (ws ++ X))).serial
      = stringsTrimSpace X := by
  have hp := spaceTab_perlSpace ws hws
  have hXn : ∀ c ∈ X, c ≠ '\n' := fun c hc => (hX c hc).1
  refine ⟨?_, ?_, ?_⟩
  · have hs := scanLines_key_line "Manufacturer".data ws X 12 (by decide) (by decide)
      hws hX (by omega)
    obtain ⟨v, hv, ht⟩ := dmi_capture "Manufacturer".data ws X hp hXn
    have hre : reDmiMfg ("Manufacturer".data ++ ':' :: (ws ++ X)) = some v := hv
    unfold parseDmiSystem
    rw [hs]
    simp only [List.foldl_cons, List.foldl_nil, dmiStep, hre, setLast, ht]
  · have hs := scanLines_key_line "Product Name".data ws X 12 (by decide) (by decide)
      hws hX (by omega)
    obtain ⟨v, hv, ht⟩ := dmi_capture "Product Name".data ws X hp hXn
    have hre : reDmiProduct ("Product Name".data ++ ':' :: (ws ++ X)) = some v := hv
    unfold parseDmiSystem
    rw [hs]
    simp only [List.foldl_cons, List.foldl_nil, dmiStep, hre, setLast, ht]
  · have hs := scanLines_key_line "Serial Number".data ws X 13 (by decide) (by decide)
      hws hX (by omega)
    obtain ⟨v, hv, ht⟩ := dmi_capture "Serial Number".data ws X hp hXn
    have hre : reDmiSerial ("Serial Number".data ++ ':' :: (ws ++ X)) = some v := hv
    unfold parseDmiSystem
    rw [hs]
    simp only [List.foldl_cons, List.foldl_nil, dmiStep, hre, setLast, ht]

/-- Witness for C7: the value ` Dell Inc. ` after `Manufacturer:` and two spaces. -/
theorem C7_witness_dell :
    "Manufacturer".data ++ ':' :: ("  ".data ++ " Dell Inc. ".data)
      = "Manufacturer:   Dell Inc. ".data ∧
    stringsTrimSpace " Dell Inc. ".data = "Dell Inc.".data ∧
    ((parseDmiSystem ("Manufacturer".data ++ ':' :: ("  ".data ++ " Dell Inc. ".data))).manufacturer
      = stringsTrimSpace " Dell Inc. ".data ∧
    (parseDmiSystem ("Product Name".data ++ ':' :: ("  ".data ++ " Dell Inc. ".data))).productName
      = stringsTrimSpace " Dell Inc. ".data ∧
    (parseDmiSystem ("Serial Number".data ++ ':' :: ("  ".data ++ " Dell Inc. ".data))).serial
      = stringsTrimSpace " Dell Inc. ".data) :=
  ⟨by decide, by decide,
    C7_dmi_space_after_colon "  ".data " Dell Inc. ".data (by decide) (by decide) (by decide)⟩

/-- Counterexample to C7 as stated: with a space before the colon the DMI
expressions do not match, so the lines `Manufacturer : Dell`, `Product Name : R640`
and `Serial Number : XYZ` leave their fields empty, while the same lines without
that space yield `Dell`, `R640` and `XYZ`. -/
theorem C7_counterexample_space_before_colon :
    (parseDmiSystem "Manufacturer : Dell".data).manufacturer = [] ∧
    (parseDmiSystem "Manufacturer: Dell".data).manufacturer = "Dell".data ∧
    (parseDmiSystem "Product Name : R640".data).productName = [] ∧
    (parseDmiSystem "Product Name: R640".data).productName = "R640".data ∧
    (parseDmiSystem "Serial Number : XYZ".data).serial = [] ∧
    (parseDmiSystem "Serial Number: XYZ".data).serial = "XYZ".data := by
  decide

/-! ## C8: a missing key leaves the field empty -/

theorem containsKey_cons {key : GoString} {c : Char} {cs : GoString}
    (h : containsKey key (c :: cs) = false) :
    matchLit key (c :: cs) = none ∧ containsKey key cs = false := by
  unfold containsKey at h ⊢
  rw [leftmost] at h
  cases hm : matchLit key (c :: cs) with
  | some r => rw [hm] at h; simp at h
  | none => rw [hm] at h; exact ⟨rfl, h⟩

theorem matchAlt_none_of_matchLit {α : Type} (alts : List GoString)
    (k : GoString → Option α) (s : GoString) (h : ∀ key ∈ alts, matchLit key s = none) :
    matchAlt alts k s = none := by
  unfold matchAlt
  rw [List.findSome?_eq_none_iff]
  intro key hkey
  rw [h key hkey]
  rfl

/-- An expression whose keys do not occur in the line does not match it. -/
theorem leftmost_matchAlt_none {α : Type} (alts : List GoString) (k : GoString → Option α)
    (line : GoString) (h : ∀ key ∈ alts, containsKey key line = false) :
    leftmost (matchAlt alts k) line = none := by
  induction line with
  | nil =>
    apply matchAlt_none_of_matchLit
    intro key hkey
    have := h key hkey
    unfold containsKey at this
    cases hm : matchLit key [] with
    | none => rfl
    | some r => simp [leftmost, hm] at this
  | cons c cs ih =>
    have h1 : matchAlt alts k (c :: cs) = none :=
      matchAlt_none_of_matchLit alts k _ (fun key hkey => (containsKey_cons (h key hkey)).1)
    rw [leftmost, h1]
    exact ih (fun key hkey => (containsKey_cons (h key hkey)).2)

theorem lastValue_of_none (re : GoString → Option GoString) (lines : List GoString)
    (h : ∀ l ∈ lines, re l = none) : lastValue re lines = [] := by
  have : lines.reverse.findSome? re = none := by
    rw [List.findSome?_eq_none_iff]
    intro l hl
    exact h l (List.mem_reverse.mp hl)
  simp only [lastValue, this]

theorem firstNonEmptyValue_of_none (re : GoString → Option GoString)
    (lines : List GoString) (h : ∀ l ∈ lines, re l = none) :
    firstNonEmptyValue re lines = [] := by
  have : lines.findSome? (nonEmptyValue re) = none := by
    rw [List.findSome?_eq_none_iff]
    intro l hl
    simp only [nonEmptyValue, h l hl]
  simp only [firstNonEmptyValue, this]

theorem mem_textLines_of_mem_scanLines {text l : GoString} (h : l ∈ scanLines text) :
    l ∈ textLines text := by
  unfold scanLines at h
  unfold textLines
  obtain ⟨r, hr, rfl⟩ := List.mem_map.mp h
  exact List.mem_map.mpr ⟨r, (List.takeWhile_sublist _).subset hr, rfl⟩

/-- Claim C8. For each of the three parsers and every input text: when no line of
the text contains a key of a field (compared case-insensitively), that field is
returned as the empty string.  The parsers are total functions returning plain
records, and on the empty text every field is empty. -/
theorem C8_missing_key_gives_empty (text : GoString) :
    ((∀ l ∈ textLines text, containsKey "Board Mfg".data l = false) →
      (parseFruPrint text).manufacturer = []) ∧
    ((∀ l ∈ textLines text, containsKey "Board Product".data l = false ∧
        containsKey "Product Name".data l = false) →
      (parseFruPrint text).model = []) ∧
    ((∀ l ∈ textLines text, containsKey "Board Serial".data l = false ∧
        containsKey "Product Serial".data l = false) →
      (parseFruPrint text).serial = []) ∧
    ((∀ l ∈ textLines text, containsKey "IP Address".data l = false) →
      (parseLanPrint text).ipAddress = []) ∧
    ((∀ l ∈ textLines text, containsKey "MAC Address".data l = false) →
      (parseLanPrint text).macAddress = []) ∧
    ((∀ l ∈ textLines text, containsKey "Manufacturer".data l = false) →
      (parseDmiSystem text).manufacturer = []) ∧
    ((∀ l ∈ textLines text, containsKey "Product Name".data l = false) →
      (parseDmiSystem text).productName = []) ∧
    ((∀ l ∈ textLines text, containsKey "Serial Number".data l = false) →
      (parseDmiSystem text).serial = []) ∧
    parseFruPrint [] = ⟨[], [], []⟩ ∧ parseLanPrint [] = ⟨[], []⟩ ∧
    parseDmiSystem [] = ⟨[], [], []⟩ := by
  refine ⟨?_, ?_, ?_, ?_, ?_, ?_, ?_, ?_, rfl, rfl, rfl⟩
  · intro h
    rw [parseFruPrint_manufacturer]
    apply lastValue_of_none
    intro l hl
    apply leftmost_matchAlt_none
    intro key hkey
    rw [List.mem_singleton.mp hkey]
    exact h l (mem_textLines_of_mem_scanLines hl)
  · intro h
    rw [parseFruPrint_model]
    apply firstNonEmptyValue_of_none
    intro l hl
    apply leftmost_matchAlt_none
    intro key hkey
    have := h l (mem_textLines_of_mem_scanLines hl)
    rcases List.mem_cons.mp hkey with hk | hk
    · rw [hk]; exact this.1
    · rw [List.mem_singleton.mp hk]; exact this.2
  · intro h
    rw [parseFruPrint_serial]
    apply firstNonEmptyValue_of_none
    intro l hl
    apply leftmost_matchAlt_none
    intro key hkey
    have := h l (mem_textLines_of_mem_scanLines hl)
    rcases List.mem_cons.mp hkey with hk | hk
    · rw [hk]; exact this.1
    · rw [List.mem_singleton.mp hk]; exact this.2
  · intro h
    rw [parseLanPrint_ipAddress]
    apply lastValue_of_none
    intro l hl
    apply leftmost_matchAlt_none
    intro key hkey
    rw [List.mem_singleton.mp hkey]
    exact h l (mem_textLines_of_mem_scanLines hl)
  · intro h
    rw [parseLanPrint_macAddress]
    apply lastValue_of_none
    intro l hl
    apply leftmost_matchAlt_none
    intro key hkey
    rw [List.mem_singleton.mp hkey]
    exact h l (mem_textLines_of_mem_scanLines hl)
  · intro h
    rw [parseDmiSystem_manufacturer]
    apply lastValue_of_none
    intro l hl
    apply leftmost_matchAlt_none
    intro key hkey
    rw [List.mem_singleton.mp hkey]
    exact h l (mem_textLines_of_mem_scanLines hl)
  · intro h
    rw [parseDmiSystem_productName]
    apply lastValue_of_none
    intro l hl
    apply leftmost_matchAlt_none
    intro key hkey
    rw [List.mem_singleton.mp hkey]
    exact h l (mem_textLines_of_mem_scanLines hl)
  · intro h
    rw [parseDmiSystem_serial]
    apply lastValue_of_none
    intro l hl
    apply leftmost_matchAlt_none
    intro key hkey
    rw [List.mem_singleton.mp hkey]
    exact h l (mem_textLines_of_mem_scanLines hl)

/-- Witness for C8: a text with the single recognized key `Board Serial`; every
other field is empty. -/
theorem C8_witness_one_key :
    (parseFruPrint "Chassis Type: Rack\nBoard Serial: S1\n".data).manufacturer = [] ∧
    (parseFruPrint "Chassis Type: Rack\nBoard Serial: S1\n".data).model = [] ∧
    (parseFruPrint "Chassis Type: Rack\nBoard Serial: S1\n".data).serial = "S1".data ∧
    (parseLanPrint "Chassis Type: Rack\nBoard Serial: S1\n".data).ipAddress = [] ∧
    (parseLanPrint "Chassis Type: Rack\nBoard Serial: S1\n".data).macAddress = [] ∧
    (parseDmiSystem "Chassis Type: Rack\nBoard Serial: S1\n".data).manufacturer = [] ∧
    (parseDmiSystem "Chassis Type: Rack\nBoard Serial: S1\n".data).productName = [] ∧
    (parseDmiSystem "Chassis Type: Rack\nBoard Serial: S1\n".data).serial = [] :=
  have h := C8_missing_key_gives_empty "Chassis Type: Rack\nBoard Serial: S1\n".data
  ⟨h.1 (by decide), h.2.1 (by decide), by decide, h.2.2.2.1 (by decide),
    h.2.2.2.2.1 (by decide), h.2.2.2.2.2.1 (by decide), h.2.2.2.2.2.2.1 (by decide),
    h.2.2.2.2.2.2.2.1 (by decide)⟩

/-! ## C9, C10: the reconciliation -/

theorem reconcile_Manufacturer (u : UnicodeTables) (fru : FruResult) (lan : LanResult)
    (dmi : DmiResult) :
    (reconcile u fru lan (some dmi)).Manufacturer
      = (overrideManufacturer dmi.manufacturer (seedInfo fru lan)).Manufacturer := by
  simp only [reconcile, afterDmi, dmiBlock, finalSerial, overrideSerial, overrideModel]
  repeat' split
  all_goals rfl

theorem reconcile_Model (u : UnicodeTables) (fru : FruResult) (lan : LanResult)
    (dmi : DmiResult) :
    (reconcile u fru lan (some dmi)).Model
      = (overrideModel dmi.productName (seedInfo fru lan)).Model := by
  simp only [reconcile, afterDmi, dmiBlock, finalSerial, overrideSerial, overrideModel,
    overrideManufacturer]
  repeat' split
  all_goals rfl

/-- Claim C9, amended. When DMI data is available, the manufacturer of the record
is the DMI manufacturer if the DMI manufacturer is not empty and the FRU
manufacturer is empty or strictly shorter in bytes (Go's `len`) than the DMI
manufacturer, and the FRU manufacturer otherwise; in particular equal byte
lengths never overwrite.  The same rule gives the model from the DMI product
name. -/
theorem C9_override_by_byte_length (u : UnicodeTables) (fru : FruResult) (lan : LanResult)
    (dmi : DmiResult) :
    (reconcile u fru lan (some dmi)).Manufacturer
      = (if dmi.manufacturer ≠ [] ∧
            (fru.manufacturer = [] ∨ len fru.manufacturer < len dmi.manufacturer)
          then dmi.manufacturer else fru.manufacturer) ∧
    (reconcile u fru lan (some dmi)).Model
      = (if dmi.productName ≠ [] ∧ (fru.model = [] ∨ len fru.model < len dmi.productName)
          then dmi.productName else fru.model) := by
  rw [reconcile_Manufacturer, reconcile_Model]
  constructor
  · simp only [overrideManufacturer, seedInfo]
    split <;> rfl
  · simp only [overrideModel, seedInfo]
    split <;> rfl

/-- The examples of the specification: the manufacturer `ACME` is kept against the
DMI manufacturer `ACME` and replaced by the DMI manufacturer `ACME Corp`. -/
theorem override_ACME_examples :
    (reconcile basicTables ⟨"ACME".data, [], []⟩ ⟨[], []⟩
      (some ⟨"ACME".data, [], []⟩)).Manufacturer = "ACME".data ∧
    (reconcile basicTables ⟨"ACME".data, [], []⟩ ⟨[], []⟩
      (some ⟨"ACME Corp".data, [], []⟩)).Manufacturer = "ACME Corp".data := by
  decide

/-- Counterexample to C9 as stated: the FRU manufacturer `Été` has 3 characters
and 5 bytes, the DMI manufacturer `ACME` has 4 characters and 4 bytes.  The FRU
value is strictly shorter in character count, yet it is not overwritten. -/
theorem C9_counterexample_character_count :
    (parseFruPrint "Board Mfg: Été".data).manufacturer = "Été".data ∧
    (parseDmiSystem "Manufacturer: ACME".data).manufacturer = "ACME".data ∧
    "Été".data.length = 3 ∧ "ACME".data.length = 4 ∧
    len "Été".data = 5 ∧ len "ACME".data = 4 ∧
    (main basicTables "Board Mfg: Été".data []
      (some "Manufacturer: ACME".data)).Manufacturer = "Été".data := by
  decide

theorem reconcile_none (u : UnicodeTables) (fru : FruResult) (lan : LanResult) :
    reconcile u fru lan none = seedInfo fru lan := by
  simp only [reconcile, afterDmi, finalSerial, seedInfo, ne_eq, not_true_eq_false,
    and_false, if_false]

theorem finalSerial_dell (u : UnicodeTables) (s : SystemInfo) :
    (finalSerial u s).DellServiceTag = s.DellServiceTag ∧
    (finalSerial u s).DellExpressCode = s.DellExpressCode := by
  unfold finalSerial
  split <;> exact ⟨rfl, rfl⟩

theorem overrideSerial_dell (u : UnicodeTables) (ser : GoString) (s : SystemInfo) :
    (overrideSerial u ser s).DellServiceTag
      = (if ser ≠ [] ∧ ser ≠ s.SerialNumber ∧ isDell u s.Manufacturer = true
          then ser else s.DellServiceTag) ∧
    (overrideSerial u ser s).DellExpressCode
      = (if ser ≠ [] ∧ ser ≠ s.SerialNumber ∧ isDell u s.Manufacturer = true
          then dellServiceTagToExpressCode u ser else s.DellExpressCode) := by
  unfold overrideSerial
  by_cases h1 : ser ≠ [] ∧ ser ≠ s.SerialNumber
  · rw [if_pos h1]
    dsimp only
    by_cases h2 : isDell u s.Manufacturer = true
    · have h3 : ser ≠ [] ∧ ser ≠ s.SerialNumber ∧ isDell u s.Manufacturer = true :=
        ⟨h1.1, h1.2, h2⟩
      rw [if_pos h2, if_pos h3, if_pos h3]
      exact ⟨rfl, rfl⟩
    · have h3 : ¬ (ser ≠ [] ∧ ser ≠ s.SerialNumber ∧ isDell u s.Manufacturer = true) :=
        fun h => h2 h.2.2
      rw [if_neg h2, if_neg h3, if_neg h3]
      exact ⟨rfl, rfl⟩
  · have h3 : ¬ (ser ≠ [] ∧ ser ≠ s.SerialNumber ∧ isDell u s.Manufacturer = true) :=
      fun h => h1 ⟨h.1, h.2.1⟩
    rw [if_neg h1, if_neg h3, if_neg h3]
    exact ⟨rfl, rfl⟩

theorem overrideModel_fields (p : GoString) (s : SystemInfo) :
    (overrideModel p s).Manufacturer = s.Manufacturer ∧
    (overrideModel p s).SerialNumber = s.SerialNumber ∧
    (overrideModel p s).DellServiceTag = s.DellServiceTag ∧
    (overrideModel p s).DellExpressCode = s.DellExpressCode := by
  unfold overrideModel
  split <;> exact ⟨rfl, rfl, rfl, rfl⟩

theorem overrideManufacturer_fields (m : GoString) (s : SystemInfo) :
    (overrideManufacturer m s).Model = s.Model ∧
    (overrideManufacturer m s).SerialNumber = s.SerialNumber ∧
    (overrideManufacturer m s).DellServiceTag = s.DellServiceTag ∧
    (overrideManufacturer m s).DellExpressCode = s.DellExpressCode := by
  unfold overrideManufacturer
  split <;> exact ⟨rfl, rfl, rfl, rfl⟩

/-- The Dell fields of the record when DMI data is available. -/
theorem reconcile_dell (u : UnicodeTables) (fru : FruResult) (lan : LanResult)
    (d : DmiResult) :
    (reconcile u fru lan (some d)).DellServiceTag
      = (if d.serial ≠ [] ∧ d.serial ≠ fru.serial ∧
            isDell u (overrideManufacturer d.manufacturer (seedInfo fru lan)).Manufacturer
              = true
          then d.serial else []) ∧
    (reconcile u fru lan (some d)).DellExpressCode
      = (if d.serial ≠ [] ∧ d.serial ≠ fru.serial ∧
            isDell u (overrideManufacturer d.manufacturer (seedInfo fru lan)).Manufacturer
              = true
          then dellServiceTagToExpressCode u d.serial else []) := by
  have hf := finalSerial_dell u (afterDmi u fru lan (some d))
  have ho := overrideSerial_dell u d.serial
    (overrideModel d.productName (overrideManufacturer d.manufacturer (seedInfo fru lan)))
  have hm := overrideModel_fields d.productName
    (overrideManufacturer d.manufacturer (seedInfo fru lan))
  have hn := overrideManufacturer_fields d.manufacturer (seedInfo fru lan)
  have hs : (seedInfo fru lan).SerialNumber = fru.serial ∧
      (seedInfo fru lan).DellServiceTag = [] ∧ (seedInfo fru lan).DellExpressCode = [] :=
    ⟨rfl, rfl, rfl⟩
  rw [hm.1, hm.2.1, hm.2.2.1, hm.2.2.2, hn.2.1, hn.2.2.1, hn.2.2.2, hs.1, hs.2.1, hs.2.2]
    at ho
  unfold reconcile
  rw [hf.1, hf.2]
  exact ho

/-- Claim C10. `dellServiceTag` is non-empty exactly when DMI data is available, the
DMI serial is non-empty and differs from the FRU serial, and the manufacturer
after the manufacturer override contains `dell` case-insensitively; in that case
`dellServiceTag` is the DMI serial and `dellExpressCode` is
`dellServiceTagToExpressCode` of the DMI serial.  A DMI serial equal to the FRU
serial produces no Dell fields. -/
theorem C10_dell_fields (u : UnicodeTables) (fru : FruResult) (lan : LanResult)
    (dmi : Option DmiResult) :
    ((reconcile u fru lan dmi).DellServiceTag ≠ [] ↔
      ∃ d, dmi = some d ∧ d.serial ≠ [] ∧ d.serial ≠ fru.serial ∧
        isDell u (overrideManufacturer d.manufacturer (seedInfo fru lan)).Manufacturer
          = true) ∧
    (∀ d, dmi = some d → d.serial ≠ [] → d.serial ≠ fru.serial →
      isDell u (overrideManufacturer d.manufacturer (seedInfo fru lan)).Manufacturer = true →
      (reconcile u fru lan dmi).DellServiceTag = d.serial ∧
      (reconcile u fru lan dmi).DellExpressCode = dellServiceTagToExpressCode u d.serial) ∧
    (∀ d, dmi = some d → d.serial = fru.serial →
      (reconcile u fru lan dmi).DellServiceTag = [] ∧
      (reconcile u fru lan dmi).DellExpressCode = []) := by
  cases dmi with
  | none =>
    rw [reconcile_none]
    refine ⟨⟨fun h => absurd rfl h, ?_⟩, ?_, ?_⟩
    · rintro ⟨d, hd, _⟩
      exact Option.noConfusion hd
    · intro d hd
      exact Option.noConfusion hd
    · intro d hd
      exact Option.noConfusion hd
  | some d0 =>
    obtain ⟨ht, hc⟩ := reconcile_dell u fru lan d0
    rw [ht, hc]
    refine ⟨⟨?_, ?_⟩, ?_, ?_⟩
    · intro h
      refine ⟨d0, rfl, ?_⟩
      by_contra hn
      rw [if_neg hn] at h
      exact h rfl
    · rintro ⟨d, hd, h⟩
      cases hd
      rw [if_pos h]
      exact h.1
    · intro d hd h1 h2 h3
      cases hd
      rw [if_pos ⟨h1, h2, h3⟩, if_pos ⟨h1, h2, h3⟩]
      exact ⟨rfl, rfl⟩
    · intro d hd heq
      cases hd
      have hn : ¬ (d0.serial ≠ [] ∧ d0.serial ≠ fru.serial ∧
          isDell u (overrideManufacturer d0.manufacturer (seedInfo fru lan)).Manufacturer
            = true) := fun h => h.2.1 heq
      rw [if_neg hn, if_neg hn]
      exact ⟨rfl, rfl⟩

/-- Witness for C10: a Dell machine whose DMI serial `XYZ9999` differs from the
FRU serial gets the Dell fields; with the DMI serial equal to the FRU serial it
gets none. -/
theorem C10_witness_dell :
    ((reconcile basicTables ⟨"Dell Inc.".data, "R640".data, "ABC1234".data⟩ ⟨[], []⟩
        (some ⟨"Dell Inc.".data, "R640".data, "XYZ9999".data⟩)).DellServiceTag
        = "XYZ9999".data ∧
      (reconcile basicTables ⟨"Dell Inc.".data, "R640".data, "ABC1234".data⟩ ⟨[], []⟩
        (some ⟨"Dell Inc.".data, "R640".data, "XYZ9999".data⟩)).DellExpressCode
        = dellServiceTagToExpressCode basicTables "XYZ9999".data) ∧
    ((reconcile basicTables ⟨"Dell Inc.".data, "R640".data, "ABC1234".data⟩ ⟨[], []⟩
        (some ⟨"Dell Inc.".data, "R640".data, "ABC1234".data⟩)).DellServiceTag = [] ∧
      (reconcile basicTables ⟨"Dell Inc.".data, "R640".data, "ABC1234".data⟩ ⟨[], []⟩
        (some ⟨"Dell Inc.".data, "R640".data, "ABC1234".data⟩)).DellExpressCode = []) :=
  ⟨(C10_dell_fields basicTables ⟨"Dell Inc.".data, "R640".data, "ABC1234".data⟩ ⟨[], []⟩
      (some ⟨"Dell Inc.".data, "R640".data, "XYZ9999".data⟩)).2.1
      ⟨"Dell Inc.".data, "R640".data, "XYZ9999".data⟩ rfl (by decide) (by decide) (by decide),
    (C10_dell_fields basicTables ⟨"Dell Inc.".data, "R640".data, "ABC1234".data⟩ ⟨[], []⟩
      (some ⟨"Dell Inc.".data, "R640".data, "ABC1234".data⟩)).2.2
      ⟨"Dell Inc.".data, "R640".data, "ABC1234".data⟩ rfl rfl⟩

/-! ## C11-C13: the final record -/

/-- Claim C11. For every combination of FRU, LAN and DMI parse results (DMI
possibly unavailable): if the final record has a non-empty `dellServiceTag` and a
manufacturer that contains `dell` case-insensitively, then its serial number is
the `dellServiceTag`. -/
theorem C11_dell_serial_is_service_tag (u : UnicodeTables) (fru : FruResult)
    (lan : LanResult) (dmi : Option DmiResult)
    (htag : (reconcile u fru lan dmi).DellServiceTag ≠ [])
    (hdell : isDell u (reconcile u fru lan dmi).Manufacturer = true) :
    (reconcile u fru lan dmi).SerialNumber = (reconcile u fru lan dmi).DellServiceTag := by
  unfold reconcile at *
  unfold finalSerial at *
  by_cases h : isDell u (afterDmi u fru lan dmi).Manufacturer = true ∧
      (afterDmi u fru lan dmi).DellServiceTag ≠ []
  · rw [if_pos h]
  · rw [if_neg h] at htag hdell
    exact absurd ⟨hdell, htag⟩ h

/-- Witness for C11: a Dell machine whose FRU serial is `ABC1234` and whose DMI
serial is `XYZ9999`. -/
theorem C11_witness_dell :
    (reconcile basicTables ⟨"Dell Inc.".data, "R640".data, "ABC1234".data⟩ ⟨[], []⟩
      (some ⟨"Dell Inc.".data, "R640".data, "XYZ9999".data⟩)).DellServiceTag = "XYZ9999".data ∧
    (reconcile basicTables ⟨"Dell Inc.".data, "R640".data, "ABC1234".data⟩ ⟨[], []⟩
      (some ⟨"Dell Inc.".data, "R640".data, "XYZ9999".data⟩)).SerialNumber
      = (reconcile basicTables ⟨"Dell Inc.".data, "R640".data, "ABC1234".data⟩ ⟨[], []⟩
          (some ⟨"Dell Inc.".data, "R640".data, "XYZ9999".data⟩)).DellServiceTag :=
  ⟨by decide,
    C11_dell_serial_is_service_tag basicTables
      ⟨"Dell Inc.".data, "R640".data, "ABC1234".data⟩ ⟨[], []⟩
      (some ⟨"Dell Inc.".data, "R640".data, "XYZ9999".data⟩) (by decide) (by decide)⟩

/-- Claim C12. When the DMI collection is unavailable, for every FRU text and
every LAN text the final record is exactly the seed: manufacturer, model and
serial number from `parseFruPrint`, IP and MAC address from `parseLanPrint`, and
both Dell fields empty, whatever the manufacturer is. -/
theorem C12_no_dmi_gives_seed (u : UnicodeTables) (fruOut lanOut : GoString) :
    main u fruOut lanOut none =
      { Manufacturer := (parseFruPrint fruOut).manufacturer
        Model := (parseFruPrint fruOut).model
        SerialNumber := (parseFruPrint fruOut).serial
        IPAddress := (parseLanPrint lanOut).ipAddress
        MACAddress := (parseLanPrint lanOut).macAddress
        DellServiceTag := []
        DellExpressCode := [] } := by
  unfold main
  rw [Option.map_none', reconcile_none]
  rfl

/-- An instance of C12 with a Dell manufacturer: no Dell field is populated. -/
theorem no_dmi_dell_example :
    main basicTables fruTextScenario lanTextScenario none =
      { Manufacturer := "Dell Inc.".data
        Model := "PowerEdge R640".data
        SerialNumber := "ABC1234".data
        IPAddress := "10.0.0.5".data
        MACAddress := "aa:bb:cc:dd:ee:ff".data
        DellServiceTag := []
        DellExpressCode := [] } ∧
    isDell basicTables
      (main basicTables fruTextScenario lanTextScenario none).Manufacturer = true := by
  decide

theorem stringsToUpper_ascii (u : UnicodeTables) (s : GoString) (h : isASCII s = true) :
    stringsToUpper u s = s.map Char.toUpper := by
  simp only [stringsToUpper, h, if_true]

theorem stringsToLower_ascii (u : UnicodeTables) (s : GoString) (h : isASCII s = true) :
    stringsToLower u s = s.map Char.toLower := by
  simp only [stringsToLower, h, if_true]

/-- On an ASCII string the Dell test does not depend on the Unicode tables. -/
theorem isDell_ascii (u : UnicodeTables) (s : GoString) (h : isASCII s = true) :
    isDell u s = stringsContains (s.map Char.toLower) "dell".data := by
  simp only [isDell, stringsToLower_ascii u s h]

/-- On an ASCII tag the transform does not depend on the Unicode tables. -/
theorem expressCode_ascii (u : UnicodeTables) (tag : GoString) (h : isASCII tag = true) :
    dellServiceTagToExpressCode u tag = dellServiceTagToExpressCode basicTables tag := by
  simp only [dellServiceTagToExpressCode, stringsToUpper_ascii _ tag h]

/-- Claim C13. On the FRU, LAN and DMI texts of the end-to-end scenario the
parsers followed by the reconciliation give manufacturer `Dell Inc.`, model
`PowerEdge R640`, serial number and service tag `XYZ9999`, the express code that
is the decimal string of the base-36 value of `XYZ9999` (`73948885533`), IP
address `10.0.0.5` and MAC address `aa:bb:cc:dd:ee:ff`. -/
theorem C13_end_to_end_scenario (u : UnicodeTables) :
    main u fruTextScenario lanTextScenario (some dmiTextScenario) =
      { Manufacturer := "Dell Inc.".data
        Model := "PowerEdge R640".data
        SerialNumber := "XYZ9999".data
        IPAddress := "10.0.0.5".data
        MACAddress := "aa:bb:cc:dd:ee:ff".data
        DellServiceTag := "XYZ9999".data
        DellExpressCode := Nat.toDigits 10 (base36Value "XYZ9999".data) } ∧
    Nat.toDigits 10 (base36Value "XYZ9999".data) = "73948885533".data := by
  refine ⟨?_, by decide⟩
  have hf : parseFruPrint fruTextScenario
      = ⟨"Dell Inc.".data, "PowerEdge R640".data, "ABC1234".data⟩ := by decide
  have hl : parseLanPrint lanTextScenario
      = ⟨"10.0.0.5".data, "aa:bb:cc:dd:ee:ff".data⟩ := by decide
  have hd : parseDmiSystem dmiTextScenario
      = ⟨"Dell Inc.".data, "PowerEdge R640".data, "XYZ9999".data⟩ := by decide
  have hm : ¬ ("Dell Inc.".data ≠ [] ∧
      ("Dell Inc.".data = [] ∨ len "Dell Inc.".data < len "Dell Inc.".data)) := by decide
  have hp : ¬ ("PowerEdge R640".data ≠ [] ∧ ("PowerEdge R640".data = [] ∨
      len "PowerEdge R640".data < len "PowerEdge R640".data)) := by decide
  have hs : "XYZ9999".data ≠ [] ∧ "XYZ9999".data ≠ "ABC1234".data := by decide
  have hdell : isDell u "Dell Inc.".data = true := by
    rw [isDell_ascii u _ (by decide)]
    decide
  have hcode : dellServiceTagToExpressCode u "XYZ9999".data
      = Nat.toDigits 10 (base36Value "XYZ9999".data) := by
    rw [expressCode_ascii u _ (by decide)]
    decide
  have htag : ("XYZ9999".data : GoString) ≠ [] := by decide
  unfold main
  rw [hf, hl, Option.map_some', hd]
  simp only [reconcile, afterDmi, dmiBlock, seedInfo, overrideManufacturer,
    overrideModel, overrideSerial, finalSerial, hm, hp, hs, hdell, hcode, htag, if_false,
    if_true, and_self, ne_eq, not_false_eq_true]

/-! ## C17, C18: the final pass and the network fields -/

theorem overrideSerial_fields (u : UnicodeTables) (ser : GoString) (s : SystemInfo) :
    (overrideSerial u ser s).Manufacturer = s.Manufacturer ∧
    (overrideSerial u ser s).Model = s.Model ∧
    (overrideSerial u ser s).IPAddress = s.IPAddress ∧
    (overrideSerial u ser s).MACAddress = s.MACAddress ∧
    (overrideSerial u ser s).SerialNumber
      = (if ser ≠ [] ∧ ser ≠ s.SerialNumber then ser else s.SerialNumber) := by
  unfold overrideSerial
  by_cases h1 : ser ≠ [] ∧ ser ≠ s.SerialNumber
  · rw [if_pos h1, if_pos h1]
    dsimp only
    by_cases h2 : isDell u s.Manufacturer = true
    · rw [if_pos h2]
      exact ⟨rfl, rfl, rfl, rfl, rfl⟩
    · rw [if_neg h2]
      exact ⟨rfl, rfl, rfl, rfl, rfl⟩
  · rw [if_neg h1, if_neg h1]
    exact ⟨rfl, rfl, rfl, rfl, rfl⟩

theorem overrideModel_network (p : GoString) (s : SystemInfo) :
    (overrideModel p s).IPAddress = s.IPAddress ∧
    (overrideModel p s).MACAddress = s.MACAddress := by
  unfold overrideModel
  split <;> exact ⟨rfl, rfl⟩

theorem overrideManufacturer_network (m : GoString) (s : SystemInfo) :
    (overrideManufacturer m s).IPAddress = s.IPAddress ∧
    (overrideManufacturer m s).MACAddress = s.MACAddress := by
  unfold overrideManufacturer
  split <;> exact ⟨rfl, rfl⟩

theorem finalSerial_fields (u : UnicodeTables) (s : SystemInfo) :
    (finalSerial u s).Manufacturer = s.Manufacturer ∧
    (finalSerial u s).Model = s.Model ∧
    (finalSerial u s).IPAddress = s.IPAddress ∧
    (finalSerial u s).MACAddress = s.MACAddress := by
  unfold finalSerial
  split <;> exact ⟨rfl, rfl, rfl, rfl⟩

/-- The serial number and the service tag after the `dmidecode` branch. -/
theorem afterDmi_serial (u : UnicodeTables) (fru : FruResult) (lan : LanResult)
    (d : DmiResult) :
    (afterDmi u fru lan (some d)).SerialNumber
      = (if d.serial ≠ [] ∧ d.serial ≠ fru.serial then d.serial else fru.serial) ∧
    (afterDmi u fru lan (some d)).DellServiceTag
      = (if d.serial ≠ [] ∧ d.serial ≠ fru.serial ∧
            isDell u (overrideManufacturer d.manufacturer (seedInfo fru lan)).Manufacturer
              = true
          then d.serial else []) := by
  have ho := overrideSerial_fields u d.serial
    (overrideModel d.productName (overrideManufacturer d.manufacturer (seedInfo fru lan)))
  have hd := overrideSerial_dell u d.serial
    (overrideModel d.productName (overrideManufacturer d.manufacturer (seedInfo fru lan)))
  have hm := overrideModel_fields d.productName
    (overrideManufacturer d.manufacturer (seedInfo fru lan))
  have hn := overrideManufacturer_fields d.manufacturer (seedInfo fru lan)
  have hs : (seedInfo fru lan).SerialNumber = fru.serial ∧
      (seedInfo fru lan).DellServiceTag = [] := ⟨rfl, rfl⟩
  rw [hm.2.1, hn.2.1, hs.1] at ho
  rw [hm.1, hm.2.1, hm.2.2.1, hn.2.1, hn.2.2.1, hs.1, hs.2] at hd
  exact ⟨ho.2.2.2.2, hd.1⟩

/-- After the `dmidecode` branch a non-empty service tag is already the serial
number. -/
theorem afterDmi_tag_is_serial (u : UnicodeTables) (fru : FruResult) (lan : LanResult)
    (dmi : Option DmiResult) (h : (afterDmi u fru lan dmi).DellServiceTag ≠ []) :
    (afterDmi u fru lan dmi).SerialNumber = (afterDmi u fru lan dmi).DellServiceTag := by
  cases dmi with
  | none => exact absurd rfl h
  | some d =>
    obtain ⟨hs, ht⟩ := afterDmi_serial u fru lan d
    rw [ht] at h
    rw [hs, ht]
    by_cases hc : d.serial ≠ [] ∧ d.serial ≠ fru.serial ∧
        isDell u (overrideManufacturer d.manufacturer (seedInfo fru lan)).Manufacturer = true
    · rw [if_pos hc, if_pos ⟨hc.1, hc.2.1⟩]
    · rw [if_neg hc] at h
      exact absurd rfl h

theorem finalSerial_noop (u : UnicodeTables) (s : SystemInfo)
    (h : s.DellServiceTag ≠ [] → s.SerialNumber = s.DellServiceTag) :
    finalSerial u s = s := by
  unfold finalSerial
  by_cases hc : isDell u s.Manufacturer = true ∧ s.DellServiceTag ≠ []
  · rw [if_pos hc]
    have := h hc.2
    cases s
    simp only at this
    simp only [this]
  · rw [if_neg hc]

/-- Claim C17. The final serial normalisation never changes the record: after
the `dmidecode` branch a non-empty `dellServiceTag` is already the serial number,
so the reconciliation with and without the final pass give the same record.  The
final serial number is the DMI serial when DMI data is available with a
non-empty serial, and the FRU serial otherwise. -/
theorem C17_final_pass_is_identity (u : UnicodeTables) (fru : FruResult) (lan : LanResult)
    (dmi : Option DmiResult) :
    reconcile u fru lan dmi = afterDmi u fru lan dmi ∧
    ((afterDmi u fru lan dmi).DellServiceTag ≠ [] →
      (afterDmi u fru lan dmi).SerialNumber = (afterDmi u fru lan dmi).DellServiceTag) ∧
    (reconcile u fru lan dmi).SerialNumber =
      (match dmi with
       | some d => if d.serial ≠ [] then d.serial else fru.serial
       | none => fru.serial) := by
  have h1 : reconcile u fru lan dmi = afterDmi u fru lan dmi :=
    finalSerial_noop u _ (afterDmi_tag_is_serial u fru lan dmi)
  refine ⟨h1, afterDmi_tag_is_serial u fru lan dmi, ?_⟩
  rw [h1]
  cases dmi with
  | none => rfl
  | some d =>
    rw [(afterDmi_serial u fru lan d).1]
    show (if d.serial ≠ [] ∧ d.serial ≠ fru.serial then d.serial else fru.serial)
      = (if d.serial ≠ [] then d.serial else fru.serial)
    by_cases ha : d.serial ≠ []
    · by_cases hb : d.serial ≠ fru.serial
      · rw [if_pos ⟨ha, hb⟩, if_pos ha]
      · have hb2 : d.serial = fru.serial := by
          by_contra hne
          exact hb hne
        have hn : ¬ (d.serial ≠ [] ∧ d.serial ≠ fru.serial) := fun h => hb h.2
        rw [if_neg hn, if_pos ha, hb2]
    · have hn : ¬ (d.serial ≠ [] ∧ d.serial ≠ fru.serial) := fun h => ha h.1
      rw [if_neg hn, if_neg ha]

/-- Witness for C17: the Dell record of the end-to-end scenario. -/
theorem C17_witness_dell :
    (afterDmi basicTables ⟨"Dell Inc.".data, "R640".data, "ABC1234".data⟩ ⟨[], []⟩
      (some ⟨"Dell Inc.".data, "R640".data, "XYZ9999".data⟩)).DellServiceTag = "XYZ9999".data ∧
    (afterDmi basicTables ⟨"Dell Inc.".data, "R640".data, "ABC1234".data⟩ ⟨[], []⟩
      (some ⟨"Dell Inc.".data, "R640".data, "XYZ9999".data⟩)).SerialNumber
      = (afterDmi basicTables ⟨"Dell Inc.".data, "R640".data, "ABC1234".data⟩ ⟨[], []⟩
          (some ⟨"Dell Inc.".data, "R640".data, "XYZ9999".data⟩)).DellServiceTag :=
  ⟨by decide,
    (C17_final_pass_is_identity basicTables
      ⟨"Dell Inc.".data, "R640".data, "ABC1234".data⟩ ⟨[], []⟩
      (some ⟨"Dell Inc.".data, "R640".data, "XYZ9999".data⟩)).2.1 (by decide)⟩

/-- The network fields of the record are those of the LAN parse result. -/
theorem reconcile_network (u : UnicodeTables) (fru : FruResult) (lan : LanResult)
    (dmi : Option DmiResult) :
    (reconcile u fru lan dmi).IPAddress = lan.ipAddress ∧
    (reconcile u fru lan dmi).MACAddress = lan.macAddress := by
  unfold reconcile
  rw [(finalSerial_fields u _).2.2.1, (finalSerial_fields u _).2.2.2]
  cases dmi with
  | none => exact ⟨rfl, rfl⟩
  | some d =>
    unfold afterDmi dmiBlock
    rw [(overrideSerial_fields u _ _).2.2.1, (overrideSerial_fields u _ _).2.2.2.1,
      (overrideModel_network _ _).1, (overrideModel_network _ _).2,
      (overrideManufacturer_network _ _).1, (overrideManufacturer_network _ _).2]
    exact ⟨rfl, rfl⟩

/-- Claim C18. The reconciliation never alters the network fields: for every FRU
text, LAN text and DMI text (or DMI unavailable) the final IP address and MAC
address are the two values returned by `parseLanPrint` on the LAN text; two runs
on the same LAN text agree on them whatever the FRU and DMI inputs are. -/
theorem C18_network_fields_frame (u : UnicodeTables) (fruOut lanOut : GoString)
    (dmiOut : Option GoString) :
    (main u fruOut lanOut dmiOut).IPAddress = (parseLanPrint lanOut).ipAddress ∧
    (main u fruOut lanOut dmiOut).MACAddress = (parseLanPrint lanOut).macAddress ∧
    ∀ (fruOut2 : GoString) (dmiOut2 : Option GoString),
      (main u fruOut2 lanOut dmiOut2).IPAddress = (main u fruOut lanOut dmiOut).IPAddress ∧
      (main u fruOut2 lanOut dmiOut2).MACAddress = (main u fruOut lanOut dmiOut).MACAddress := by
  have h := fun (f : GoString) (d : Option GoString) =>
    reconcile_network u (parseFruPrint f) (parseLanPrint lanOut) (d.map parseDmiSystem)
  refine ⟨(h fruOut dmiOut).1, (h fruOut dmiOut).2, ?_⟩
  intro f2 d2
  unfold main
  rw [(h f2 d2).1, (h f2 d2).2, (h fruOut dmiOut).1, (h fruOut dmiOut).2]
  exact ⟨rfl, rfl⟩

/-! ## C15, C16: the order of the steps and the range of the parse -/

/-- Claim C15. The order of the reconciliation steps matters: with an empty FRU
manufacturer, the DMI manufacturer `Dell Inc.` and a DMI serial `XYZ9999` that
differs from the FRU serial `ABC1234`, the order of `main` populates
`dellServiceTag`, while running the serial step before the manufacturer override
leaves it empty; the two final records differ. -/
theorem C15_step_order_matters :
    ∃ (fru : FruResult) (lan : LanResult) (dmi : DmiResult), ∀ u : UnicodeTables,
      (reconcile u fru lan (some dmi)).DellServiceTag = dmi.serial ∧
      dmi.serial ≠ [] ∧
      (reconcileSerialFirst u fru lan (some dmi)).DellServiceTag = [] ∧
      reconcile u fru lan (some dmi) ≠ reconcileSerialFirst u fru lan (some dmi) := by
  refine ⟨⟨[], [], "ABC1234".data⟩, ⟨[], []⟩, ⟨"Dell Inc.".data, [], "XYZ9999".data⟩, ?_⟩
  intro u
  have hdell : isDell u "Dell Inc.".data = true := by
    rw [isDell_ascii u _ (by decide)]
    decide
  have hnot : isDell u [] = false := by
    rw [isDell_ascii u _ (by decide)]
    decide
  have hs : ("XYZ9999".data : GoString) ≠ [] ∧ "XYZ9999".data ≠ "ABC1234".data := by decide
  have hne : ("XYZ9999".data : GoString) ≠ [] := hs.1
  have h1 : (reconcile u ⟨[], [], "ABC1234".data⟩ ⟨[], []⟩
      (some ⟨"Dell Inc.".data, [], "XYZ9999".data⟩)).DellServiceTag = "XYZ9999".data := by
    have hman : (overrideManufacturer "Dell Inc.".data
        (seedInfo ⟨[], [], "ABC1234".data⟩ ⟨[], []⟩)).Manufacturer = "Dell Inc.".data := by
      decide
    rw [(reconcile_dell u _ _ _).1]
    exact if_pos ⟨hs.1, hs.2, by rw [hman]; exact hdell⟩
  have h2 : (reconcileSerialFirst u ⟨[], [], "ABC1234".data⟩ ⟨[], []⟩
      (some ⟨"Dell Inc.".data, [], "XYZ9999".data⟩)).DellServiceTag = [] := by
    unfold reconcileSerialFirst dmiBlockSerialFirst
    rw [(finalSerial_dell u _).1, (overrideModel_fields _ _).2.2.1,
      (overrideManufacturer_fields _ _).2.2.1, (overrideSerial_dell u _ _).1]
    have hc : ¬ ("XYZ9999".data ≠ [] ∧ "XYZ9999".data ≠ "ABC1234".data ∧
        isDell u [] = true) := by
      rw [hnot]
      intro h
      exact Bool.noConfusion h.2.2
    exact if_neg hc
  refine ⟨h1, hne, h2, ?_⟩
  intro heq
  have := congrArg SystemInfo.DellServiceTag heq
  rw [h1, h2] at this
  exact hne this

/-- The value of at most `10 - k` base-36 digits appended to a value below `36 ^ k`
is below `36 ^ 10`. -/
theorem base36_foldl_lt (s : GoString) (hs : ∀ c ∈ s, isBase36Upper c = true) :
    ∀ (k n : Nat), n < 36 ^ k →
      s.foldl (fun acc c => acc * 36 + base36Digit c) n < 36 ^ (k + s.length) := by
  induction s with
  | nil => intro k n h; simpa using h
  | cons c cs ih =>
    intro k n hn
    obtain ⟨_, hlt⟩ := byteDigit_base36Upper (hs c (List.mem_cons_self _ _))
    have hsucc : 36 ^ (k + 1) = 36 ^ k * 36 := Nat.pow_succ ..
    have hb : n * 36 + base36Digit c < 36 ^ (k + 1) := by omega
    have := ih (fun d hd => hs d (List.mem_cons_of_mem _ hd)) (k + 1) _ hb
    simp only [List.foldl_cons, List.length_cons]
    have e : k + (cs.length + 1) = k + 1 + cs.length := by omega
    rw [e]
    exact this

theorem byteDigit_lt (c : Char) (d : Nat) (h : byteDigit c = some d) : d < 36 := by
  unfold byteDigit at h
  dsimp only at h
  by_cases h1 : 0x80 ≤ c.toNat
  · rw [if_pos h1] at h
    exact Option.noConfusion h
  · rw [if_neg h1] at h
    by_cases h2 : 48 ≤ c.toNat ∧ c.toNat ≤ 57
    · rw [if_pos h2] at h
      have := Option.some.inj h
      omega
    · rw [if_neg h2] at h
      by_cases h3 : 97 ≤ (c.toNat ||| 0x20) ∧ (c.toNat ||| 0x20) ≤ 122
      · rw [if_pos h3] at h
        have := Option.some.inj h
        omega
      · rw [if_neg h3] at h
        exact Option.noConfusion h

/-- On at most ten bytes the digit loop in base 36 never reports a range error. -/
theorem parseUintLoop_no_range (s : GoString) :
    ∀ (k n : Nat), n < 36 ^ k → k + s.length ≤ 10 →
      parseUintLoop 36 (2 ^ 64 - 1) ((2 ^ 64 - 1) / 36 + 1) s n ≠ .error .outOfRange := by
  induction s with
  | nil => intro k n _ _ h; exact Except.noConfusion h
  | cons c cs ih =>
    intro k n hn hk
    unfold parseUintLoop
    cases hd : byteDigit c with
    | none => intro h; cases h
    | some d =>
      have hlt := byteDigit_lt c d hd
      have hpow : 36 ^ (k + 1) ≤ 36 ^ 10 :=
        Nat.pow_le_pow_right (by decide) (by simp only [List.length_cons] at hk; omega)
      have hsucc : 36 ^ (k + 1) = 36 ^ k * 36 := Nat.pow_succ ..
      have h10 : (36 : Nat) ^ 10 = 3656158440062976 := by norm_num
      have hbound : n * 36 + d < 36 ^ (k + 1) := by omega
      have hc : ¬ ((2 ^ 64 - 1) / 36 + 1 ≤ n) := by
        have : (2 ^ 64 - 1) / 36 + 1 = 512409557603043101 := by norm_num
        omega
      have hm1 : (n * 36) % 2 ^ 64 = n * 36 := Nat.mod_eq_of_lt (by omega)
      have hm2 : (n * 36 + d) % 2 ^ 64 = n * 36 + d := Nat.mod_eq_of_lt (by omega)
      have hlt2 : ¬ (36 ≤ d) := by omega
      have hov : ¬ (n * 36 + d < n * 36 ∨ 2 ^ 64 - 1 < n * 36 + d) := by omega
      simp only [hlt2, if_false, hc, hm1, hm2, hov]
      exact ih (k + 1) _ hbound (by simp only [List.length_cons] at hk; omega)

/-- Claim C16. The overflow rejection of `dellServiceTagToExpressCode` is
unreachable: `36 ^ 10 < 2 ^ 64`, a string of at most 10 characters over `0`-`9`,
`A`-`Z` has a base-36 value below `36 ^ 10`, `strconv.ParseUint` in base 36 never
returns a range error on a string of at most 10 bytes (the only strings the
transform passes to it), and every tag that passes the length and alphabet checks
yields a non-empty result. -/
theorem C16_overflow_unreachable :
    (36 : Nat) ^ 10 < 2 ^ 64 ∧
    (∀ s : GoString, s.length ≤ 10 → (∀ c ∈ s, isBase36Upper c = true) →
      base36Value s < 36 ^ 10) ∧
    (∀ s : GoString, len s ≤ 10 → strconvParseUint s 36 64 ≠ .error .outOfRange) ∧
    (∀ (u : UnicodeTables) (tag : GoString),
      5 ≤ (stringsToUpper u tag).length → (stringsToUpper u tag).length ≤ 10 →
      (∀ c ∈ stringsToUpper u tag, isBase36Upper c = true) →
      dellServiceTagToExpressCode u tag ≠ []) := by
  refine ⟨by norm_num, ?_, ?_, ?_⟩
  · intro s hl hs
    have h := base36_foldl_lt s hs 0 0 (by norm_num)
    have hp : 36 ^ (0 + s.length) ≤ 36 ^ 10 := Nat.pow_le_pow_right (by decide) (by omega)
    unfold base36Value
    omega
  · intro s hl
    unfold strconvParseUint
    split
    · intro h; cases h
    · have := length_le_len s
      exact parseUintLoop_no_range s 0 0 (by norm_num) (by omega)
  · intro u tag h1 h2 h3
    exact expressCode_ne_nil_of_good u tag h1 h2 h3

/-- Witness for C16: the largest tag `ZZZZZZZZZZ`, of value `36 ^ 10 - 1`. -/
theorem C16_witness_largest_tag :
    base36Value "ZZZZZZZZZZ".data < 36 ^ 10 ∧
    base36Value "ZZZZZZZZZZ".data = 36 ^ 10 - 1 ∧
    strconvParseUint "ZZZZZZZZZZ".data 36 64 ≠ .error .outOfRange ∧
    dellServiceTagToExpressCode basicTables "ZZZZZZZZZZ".data ≠ [] ∧
    dellServiceTagToExpressCode basicTables "ZZZZZZZZZZ".data = "3656158440062975".data :=
  ⟨C16_overflow_unreachable.2.1 "ZZZZZZZZZZ".data (by decide) (by decide),
    by decide,
    C16_overflow_unreachable.2.2.1 "ZZZZZZZZZZ".data (by decide),
    C16_overflow_unreachable.2.2.2 basicTables "ZZZZZZZZZZ".data (by decide) (by decide)
      (by decide),
    by decide⟩

/-! ## C14: every field of the record is empty or trimmed -/

theorem head?_dropWhile_not (p : Char → Bool) (z : GoString) :
    ((z.dropWhile p).head?.all fun c => !p c) = true := by
  induction z with
  | nil => rfl
  | cons a t ih =>
    by_cases h : p a = true
    · rw [List.dropWhile_cons_of_pos h]
      exact ih
    · rw [List.dropWhile_cons_of_neg h]
      simpa using h

theorem getLast?_dropWhile_not (p : Char → Bool) (z : GoString)
    (hz : (z.getLast?.all fun c => !p c) = true) :
    ((z.dropWhile p).getLast?.all fun c => !p c) = true := by
  induction z with
  | nil => rfl
  | cons a t ih =>
    by_cases h : p a = true
    · rw [List.dropWhile_cons_of_pos h]
      cases t with
      | nil => rfl
      | cons b t2 =>
        apply ih
        rw [List.getLast?_cons_cons] at hz
        exact hz
    · rw [List.dropWhile_cons_of_neg h]
      exact hz

/-- The result of `strings.TrimSpace` is empty or starts and ends with a rune that
is not white space. -/
theorem isTrimmed_trimSpace (s : GoString) : isTrimmed (stringsTrimSpace s) = true := by
  unfold isTrimmed stringsTrimSpace
  rw [List.head?_reverse, List.getLast?_reverse, Bool.and_eq_true]
  constructor
  · apply getLast?_dropWhile_not
    rw [List.getLast?_reverse]
    exact head?_dropWhile_not _ s
  · exact head?_dropWhile_not _ _

theorem isTrimmed_of_no_space (s : GoString) (h : ∀ c ∈ s, unicodeIsSpace c = false) :
    isTrimmed s = true := by
  unfold isTrimmed
  rw [Bool.and_eq_true]
  constructor
  · cases hh : s.head? with
    | none => rfl
    | some c =>
      have hc : c ∈ s := List.mem_of_mem_head? (by rw [hh]; exact rfl)
      simp [h c hc]
  · cases hh : s.getLast? with
    | none => rfl
    | some c =>
      have hc : c ∈ s := List.mem_of_getLast?_eq_some hh
      simp [h c hc]

theorem digitChar_not_space : ∀ d : Nat, d < 10 → unicodeIsSpace (Nat.digitChar d) = false := by
  decide

theorem toDigitsCore_no_space :
    ∀ (fuel n : Nat) (ds : List Char), (∀ c ∈ ds, unicodeIsSpace c = false) →
      ∀ c ∈ Nat.toDigitsCore 10 fuel n ds, unicodeIsSpace c = false := by
  intro fuel
  induction fuel with
  | zero => intro n ds h c hc; exact h c (by simpa [Nat.toDigitsCore] using hc)
  | succ f ih =>
    intro n ds h
    have hd : ∀ c ∈ Nat.digitChar (n % 10) :: ds, unicodeIsSpace c = false := by
      intro c hc
      rcases List.mem_cons.mp hc with rfl | hc
      · exact digitChar_not_space _ (Nat.mod_lt _ (by decide))
      · exact h c hc
    unfold Nat.toDigitsCore
    simp only
    split
    · exact hd
    · exact ih _ _ hd

theorem isTrimmed_sprintfD (val : Nat) : isTrimmed (sprintfD val) = true := by
  apply isTrimmed_of_no_space
  unfold sprintfD Nat.toDigits
  exact toDigitsCore_no_space _ _ [] (fun c hc => by simp at hc)

theorem isTrimmed_expressCode (u : UnicodeTables) (tag : GoString) :
    isTrimmed (dellServiceTagToExpressCode u tag) = true := by
  unfold dellServiceTagToExpressCode
  simp only
  split
  · rfl
  · split
    · rfl
    · exact isTrimmed_sprintfD _

theorem isTrimmed_lastValue (re : GoString → Option GoString) (lines : List GoString) :
    isTrimmed (lastValue re lines) = true := by
  unfold lastValue
  split
  · exact isTrimmed_trimSpace _
  · rfl

theorem isTrimmed_firstNonEmptyValue (re : GoString → Option GoString)
    (lines : List GoString) : isTrimmed (firstNonEmptyValue re lines) = true := by
  unfold firstNonEmptyValue
  split
  · rename_i v hv
    obtain ⟨l, _, hl⟩ := List.exists_of_findSome?_eq_some hv
    unfold nonEmptyValue at hl
    split at hl
    · split at hl
      · exact Option.noConfusion hl
      · rw [← Option.some.inj hl]
        exact isTrimmed_trimSpace _
    · exact Option.noConfusion hl
  · rfl

theorem parseFruPrint_trimmed (output : GoString) :
    isTrimmed (parseFruPrint output).manufacturer = true ∧
    isTrimmed (parseFruPrint output).model = true ∧
    isTrimmed (parseFruPrint output).serial = true := by
  rw [parseFruPrint_manufacturer, parseFruPrint_model, parseFruPrint_serial]
  exact ⟨isTrimmed_lastValue _ _, isTrimmed_firstNonEmptyValue _ _,
    isTrimmed_firstNonEmptyValue _ _⟩

theorem parseLanPrint_trimmed (output : GoString) :
    isTrimmed (parseLanPrint output).ipAddress = true ∧
    isTrimmed (parseLanPrint output).macAddress = true := by
  rw [parseLanPrint_ipAddress, parseLanPrint_macAddress]
  exact ⟨isTrimmed_lastValue _ _, isTrimmed_lastValue _ _⟩

theorem parseDmiSystem_trimmed (output : GoString) :
    isTrimmed (parseDmiSystem output).manufacturer = true ∧
    isTrimmed (parseDmiSystem output).productName = true ∧
    isTrimmed (parseDmiSystem output).serial = true := by
  rw [parseDmiSystem_manufacturer, parseDmiSystem_productName, parseDmiSystem_serial]
  exact ⟨isTrimmed_lastValue _ _, isTrimmed_lastValue _ _, isTrimmed_lastValue _ _⟩

theorem isTrimmed_ite (c : Prop) [Decidable c] (a b : GoString) (ha : isTrimmed a = true)
    (hb : isTrimmed b = true) : isTrimmed (if c then a else b) = true := by
  split
  · exact ha
  · exact hb

/-- The reconciliation keeps the fields trimmed. -/
theorem reconcile_allTrimmed (u : UnicodeTables) (fru : FruResult) (lan : LanResult)
    (dmi : Option DmiResult)
    (hf : isTrimmed fru.manufacturer = true ∧ isTrimmed fru.model = true ∧
      isTrimmed fru.serial = true)
    (hl : isTrimmed lan.ipAddress = true ∧ isTrimmed lan.macAddress = true)
    (hd : ∀ d, dmi = some d → isTrimmed d.manufacturer = true ∧
      isTrimmed d.productName = true ∧ isTrimmed d.serial = true) :
    allTrimmed (reconcile u fru lan dmi) = true := by
  cases dmi with
  | none =>
    rw [reconcile_none]
    simp only [allTrimmed, seedInfo, hf.1, hf.2.1, hf.2.2, hl.1, hl.2, Bool.and_self]
    rfl
  | some d =>
    obtain ⟨hd1, hd2, hd3⟩ := hd d rfl
    have hnet := reconcile_network u fru lan (some d)
    have hdell := reconcile_dell u fru lan d
    have hman : isTrimmed (reconcile u fru lan (some d)).Manufacturer = true := by
      rw [reconcile_Manufacturer]
      unfold overrideManufacturer
      split
      · exact hd1
      · exact hf.1
    have hmod : isTrimmed (reconcile u fru lan (some d)).Model = true := by
      rw [reconcile_Model]
      unfold overrideModel
      split
      · exact hd2
      · exact hf.2.1
    have hser : isTrimmed (reconcile u fru lan (some d)).SerialNumber = true := by
      have h1 : reconcile u fru lan (some d) = afterDmi u fru lan (some d) :=
        finalSerial_noop u _ (afterDmi_tag_is_serial u fru lan (some d))
      rw [h1, (afterDmi_serial u fru lan d).1]
      exact isTrimmed_ite _ _ _ hd3 hf.2.2
    have htag : isTrimmed (reconcile u fru lan (some d)).DellServiceTag = true := by
      rw [hdell.1]
      exact isTrimmed_ite _ _ _ hd3 rfl
    have hcode : isTrimmed (reconcile u fru lan (some d)).DellExpressCode = true := by
      rw [hdell.2]
      exact isTrimmed_ite _ _ _ (isTrimmed_expressCode u _) rfl
    unfold allTrimmed
    rw [hman, hmod, hser, htag, hcode, hnet.1, hnet.2, hl.1, hl.2]
    rfl

/-- Claim C14. For every triple of raw FRU, LAN and DMI texts, and also when DMI
is unavailable, every field of the final `SystemInfo` record is either the empty
string or a string whose first and last runes are not white space. -/
theorem C14_fields_empty_or_trimmed (u : UnicodeTables) (fruOut lanOut : GoString)
    (dmiOut : Option GoString) :
    allTrimmed (main u fruOut lanOut dmiOut) = true := by
  unfold main
  apply reconcile_allTrimmed u _ _ _ (parseFruPrint_trimmed fruOut)
    (parseLanPrint_trimmed lanOut)
  intro d hd
  cases dmiOut with
  | none => exact Option.noConfusion hd
  | some t =>
    have : parseDmiSystem t = d := Option.some.inj hd
    rw [← this]
    exact parseDmiSystem_trimmed t

/-- An instance of C14: values surrounded by spaces, no-break spaces, tabs and a
carriage return reach the record trimmed. -/
theorem trimmed_fields_example :
    main basicTables "Board Mfg :  \tDell Inc.  \r\nBoard Serial:  S1  ".data
        "IP Address : 10.0.0.5   \nMAC Address : aa:bb \t".data
        (some "Manufacturer:   Dell Inc.\t\nSerial Number:  XYZ9999 ".data) =
      { Manufacturer := "Dell Inc.".data
        Model := []
        SerialNumber := "XYZ9999".data
        IPAddress := "10.0.0.5".data
        MACAddress := "aa:bb".data
        DellServiceTag := "XYZ9999".data
        DellExpressCode := "73948885533".data } := by
  decide

/-! ## The carriage return counts towards the scanner's limit -/

theorem rawLines_append_newline (pre rest : GoString) (h : ∀ c ∈ pre, c ≠ '\n') :
    rawLines (pre ++ '\n' :: rest) = pre :: rawLines rest := by
  induction pre with
  | nil => simp [rawLines]
  | cons c cs ih =>
    have hc : c ≠ '\n' := h c (List.mem_cons_self _ _)
    show rawLines (c :: (cs ++ '\n' :: rest)) = _
    rw [rawLines, if_neg hc, ih (fun d hd => h d (List.mem_cons_of_mem _ hd))]

/-- The bound of `linesFit` is on the token with its carriage return: in
`fruTextLongLineCR` every line is shorter than `maxScanTokenSize` bytes once the
carriage return is dropped, yet the first token does not fit, the scanner stops
and the `Board Mfg: B` line is never read. -/
theorem carriage_return_counts_example :
    (∀ l ∈ textLines fruTextLongLineCR, len l < maxScanTokenSize) ∧
    linesFit fruTextLongLineCR = false ∧
    (parseFruPrint fruTextLongLineCR).manufacturer = [] ∧
    lastValue reFruMfg (textLines fruTextLongLineCR) = "B".data := by
  have hpre : ∀ c ∈ List.replicate (maxScanTokenSize - 1) 'x' ++ ['\r'], c ≠ '\n' := by
    intro c hc
    rcases List.mem_append.mp hc with h | h
    · rw [List.eq_of_mem_replicate h]; decide
    · rw [List.mem_singleton.mp h]; decide
  have hsplit : fruTextLongLineCR
      = (List.replicate (maxScanTokenSize - 1) 'x' ++ ['\r']) ++ '\n' :: "Board Mfg: B".data := by
    unfold fruTextLongLineCR
    rw [List.append_assoc]
    rfl
  have hraw : rawLines fruTextLongLineCR
      = (List.replicate (maxScanTokenSize - 1) 'x' ++ ['\r']) :: rawLines "Board Mfg: B".data := by
    rw [hsplit, rawLines_append_newline _ _ hpre]
  have hlen : len (List.replicate (maxScanTokenSize - 1) 'x' ++ ['\r']) = maxScanTokenSize := by
    rw [len_append, len_replicate_x]
    decide
  have hfit : fitsBuffer (List.replicate (maxScanTokenSize - 1) 'x' ++ ['\r']) = false := by
    simp only [fitsBuffer, hlen, Nat.lt_irrefl, decide_False]
  have hdrop : dropCR (List.replicate (maxScanTokenSize - 1) 'x' ++ ['\r'])
      = List.replicate (maxScanTokenSize - 1) 'x' := by
    unfold dropCR
    rw [List.getLast?_concat, if_pos rfl, List.dropLast_concat]
  have htext : textLines fruTextLongLineCR
      = List.replicate (maxScanTokenSize - 1) 'x' :: textLines "Board Mfg: B".data := by
    unfold textLines
    rw [hraw, List.map_cons, hdrop]
  refine ⟨?_, ?_, ?_, ?_⟩
  · intro l hl
    rw [htext] at hl
    rcases List.mem_cons.mp hl with h | h
    · rw [h, len_replicate_x]
      decide
    · have h2 : textLines "Board Mfg: B".data = ["Board Mfg: B".data] := by decide
      rw [h2] at h
      rw [List.mem_singleton.mp h]
      decide
  · unfold linesFit
    rw [hraw, List.all_cons, hfit]
    rfl
  · unfold parseFruPrint scanLines
    rw [hraw, List.takeWhile_cons, hfit]
    rfl
  · rw [htext, lastValue_cons_of_some reFruMfg _ _ "B".data (by decide)]
    decide

end KubeIpmi
